import Mathlib

/-!
Verification of the cycligent.js bootstrap core (script loader, readiness
gate, and the class/interface/definition registry) against its natural
language specification.  Every definition below is a shallow embedding of a
concrete function of src/cycligent.js; the source line numbers are given in
the doc comments.  JavaScript exceptions are modelled with Except, the
mutable global state with explicit state records, and sloppy-mode property
semantics (reading a property of a primitive yields undefined, assigning to
a property of a primitive is a silent no-op, dereferencing undefined throws
a TypeError) are reproduced by the JsVal operations.
-/

/-! ## Part 1: the script import manager (cycligent.Imports, lines 3236-3327) -/

/-- State of the script import manager.  Field scriptsPending mirrors
cycligent.imports.scriptsPending (line 3244, initialised to 1),
scriptsCount mirrors scriptsCount (line 3246), requestedList holds the keys
of the cycligent.imports.scripts map in insertion order (line 3245),
loadedList the scripts whose load event has completed, settledCount the
number of times cycligent.appLoad.allScriptsLoaded has fired (line 3322),
importLog the redundant-import notices (line 3264) and errorLog the script
timeout errors (line 3219). -/
structure ImportsState where
  scriptsPending : Int
  scriptsCount : Nat
  requestedList : List String
  loadedList : List String
  settledCount : Nat
  importLog : List String
  errorLog : List String
  deriving DecidableEq

/-- Initial loader state: scriptsPending starts at 1 (line 3244), one unit
above zero, so that the loader is certain to wait for the startup script. -/
def initImports : ImportsState :=
  { scriptsPending := 1, scriptsCount := 0, requestedList := [], loadedList := [],
    settledCount := 0, importLog := [], errorLog := [] }

/-- Model of cycligent.Imports.Import (lines 3253-3272): a repeated request
for the same script id only logs a redundancy notice, a new id is recorded
and both scriptsPending and scriptsCount are incremented. -/
def scriptImport (s : ImportsState) (id : String) : ImportsState :=
  if s.requestedList.contains id then
    { s with importLog := s.importLog ++ ["Redundant import of " ++ id ++ " avoided."] }
  else
    { s with scriptsPending := s.scriptsPending + 1,
             scriptsCount := s.scriptsCount + 1,
             requestedList := s.requestedList ++ [id] }

/-- Model of the decrement-and-settle tail of cycligent.Imports.scriptLoaded
(lines 3319-3323): scriptsPending is decremented and allScriptsLoaded fires
exactly when the decrement brings the counter to zero.  The deferred
resolution passes that precede the decrement (lines 3316-3317) can throw
and abort the function before it; the full event including those calls is
scriptLoadedSys in Part 7, which reduces to this function whenever the
passes return normally. -/
def scriptLoadedEvt (s : ImportsState) (id : String) : ImportsState :=
  let s1 := { s with loadedList := s.loadedList ++ [id],
                     scriptsPending := s.scriptsPending - 1 }
  if s1.scriptsPending = 0 then { s1 with settledCount := s1.settledCount + 1 } else s1

/-- Model of cycligent.Script timeout (lines 3217-3220): the timer is
cleared and an error is logged; no loader counter and no script status is
changed, in particular scriptsPending is not decremented. -/
def scriptTimeoutEvt (s : ImportsState) (id : String) : ImportsState :=
  { s with errorLog := s.errorLog ++ ["Script Import Failed: " ++ id] }

/-- Model of the loader part of cycligent.appLoad.load (lines 3701-3704):
the startup bias unit is released (scriptsPending is decremented once) just
before the startup script is imported. -/
def loadStart (startup : String) : ImportsState :=
  scriptImport { initImports with scriptsPending := initImports.scriptsPending - 1 } startup

/-- Completion events that the hosting environment can deliver for scripts
that are already requested: a load completion or a timeout tick. -/
inductive CEvent where
  | loadDone : String → CEvent
  | timedOut : String → CEvent
  deriving DecidableEq

/-- Run a list of completion events against a loader state. -/
def runEvents (s : ImportsState) : List CEvent → ImportsState
  | [] => s
  | CEvent.loadDone id :: es => runEvents (scriptLoadedEvt s id) es
  | CEvent.timedOut id :: es => runEvents (scriptTimeoutEvt s id) es

/-- Well-formedness of a completion trace: the browser delivers a load
event at most once per script element and only for scripts whose tag was
created, and a timeout tick only for requested scripts. -/
def eventsWF (s : ImportsState) : List CEvent → Bool
  | [] => true
  | CEvent.loadDone id :: es =>
      s.requestedList.contains id && !(s.loadedList.contains id)
        && eventsWF (scriptLoadedEvt s id) es
  | CEvent.timedOut id :: es => s.requestedList.contains id && eventsWF (scriptTimeoutEvt s id) es

/-- A loader state with the list R of outstanding requests, none of them
loaded yet, as it is after the bias release and R distinct imports. -/
def outstandingState (R : List String) : ImportsState :=
  { scriptsPending := (R.length : Int), scriptsCount := R.length, requestedList := R,
    loadedList := [], settledCount := 0, importLog := [], errorLog := [] }

/-- Counter invariant tying scriptsPending to the outstanding requests. -/
def counterInv (R : List String) (s : ImportsState) : Prop :=
  s.requestedList = R ∧ s.loadedList.Nodup ∧ s.loadedList ⊆ R ∧
  s.scriptsPending = (R.length : Int) - (s.loadedList.length : Int) ∧
  s.settledCount = (if s.loadedList.length = R.length then 1 else 0)

theorem scriptLoadedEvt_requestedList (s : ImportsState) (id : String) :
    (scriptLoadedEvt s id).requestedList = s.requestedList := by
  simp only [scriptLoadedEvt]
  split <;> rfl

theorem scriptLoadedEvt_loadedList (s : ImportsState) (id : String) :
    (scriptLoadedEvt s id).loadedList = s.loadedList ++ [id] := by
  simp only [scriptLoadedEvt]
  split <;> rfl

theorem scriptLoadedEvt_pending (s : ImportsState) (id : String) :
    (scriptLoadedEvt s id).scriptsPending = s.scriptsPending - 1 := by
  simp only [scriptLoadedEvt]
  split <;> rfl

theorem scriptLoadedEvt_settled (s : ImportsState) (id : String) :
    (scriptLoadedEvt s id).settledCount =
      (if s.scriptsPending - 1 = 0 then s.settledCount + 1 else s.settledCount) := by
  simp only [scriptLoadedEvt]
  split <;> simp_all

theorem counterInv_load (R : List String) (s : ImportsState) (id : String)
    (hinv : counterInv R s) (hmem : id ∈ s.requestedList)
    (hnew : id ∉ s.loadedList) : counterInv R (scriptLoadedEvt s id) := by
  obtain ⟨h1, h2, h3, h4, h5⟩ := hinv
  have hlt : s.loadedList.length < R.length := by
    rcases Nat.lt_or_ge s.loadedList.length R.length with h | h
    · exact h
    · exfalso
      have hsub : List.Subperm s.loadedList R := List.subperm_of_subset h2 h3
      have hperm : List.Perm s.loadedList R := hsub.perm_of_length_le h
      exact hnew (hperm.mem_iff.mpr (h1 ▸ hmem))
  refine ⟨?_, ?_, ?_, ?_, ?_⟩
  · rw [scriptLoadedEvt_requestedList]; exact h1
  · rw [scriptLoadedEvt_loadedList]
    simp [List.nodup_append, h2]
    exact hnew
  · rw [scriptLoadedEvt_loadedList]
    intro x hx
    rcases List.mem_append.mp hx with h | h
    · exact h3 h
    · simp at h; exact h ▸ (h1 ▸ hmem)
  · rw [scriptLoadedEvt_pending, scriptLoadedEvt_loadedList, h4]
    simp
    omega
  · have hnot : ¬ (s.loadedList.length = R.length) := Nat.ne_of_lt hlt
    rw [scriptLoadedEvt_settled, scriptLoadedEvt_loadedList, h4, h5]
    simp [hnot]
    by_cases hfull : s.loadedList.length + 1 = R.length
    · have hz : (R.length : Int) - (s.loadedList.length : Int) - 1 = 0 := by omega
      simp [hz, hfull]
    · have hz : ¬ ((R.length : Int) - (s.loadedList.length : Int) - 1 = 0) := by omega
      simp [hz, hfull]

theorem counterInv_timeout (R : List String) (s : ImportsState) (id : String)
    (hinv : counterInv R s) : counterInv R (scriptTimeoutEvt s id) := by
  obtain ⟨h1, h2, h3, h4, h5⟩ := hinv
  exact ⟨h1, h2, h3, h4, h5⟩

theorem counterInv_run (R : List String) :
    ∀ (es : List CEvent) (s : ImportsState), counterInv R s → eventsWF s es = true →
      counterInv R (runEvents s es) := by
  intro es
  induction es with
  | nil => intro s h _; exact h
  | cons e rest ih =>
    intro s hinv hwf
    cases e with
    | loadDone id =>
      simp [eventsWF] at hwf
      obtain ⟨⟨hmem, hnew⟩, hwf2⟩ := hwf
      have hmem2 : id ∈ s.requestedList := hmem
      have hnew2 : id ∉ s.loadedList := hnew
      exact ih (scriptLoadedEvt s id)
        (counterInv_load R s id hinv hmem2 hnew2) hwf2
    | timedOut id =>
      simp [eventsWF] at hwf
      exact ih (scriptTimeoutEvt s id) (counterInv_timeout R s id hinv) hwf.2

theorem outstanding_inv (R : List String) (hne : R ≠ []) :
    counterInv R (outstandingState R) := by
  have hlen : R.length ≠ 0 := fun h => hne (List.eq_nil_of_length_eq_zero h)
  refine ⟨rfl, List.nodup_nil, by simp [outstandingState], ?_, ?_⟩
  · show (R.length : Int) = (R.length : Int) - ((0 : Nat) : Int)
    omega
  · show (0 : Nat) = (if (0 : Nat) = R.length then 1 else 0)
    rw [if_neg (fun h => hlen h.symm)]


/-- A repeated import only logs, leaving every other loader field alone. -/
theorem scriptImport_dup (s : ImportsState) (id : String)
    (h : s.requestedList.contains id = true) :
    scriptImport s id =
      { s with importLog := s.importLog ++ ["Redundant import of " ++ id ++ " avoided."] } := by
  simp only [scriptImport, h]
  rfl

/-- C6: importing the same scriptId twice yields exactly one request: the
first call appends the id and increments scriptsPending and scriptsCount,
the second call leaves scriptsPending, scriptsCount and the scripts map
unchanged and only appends the redundancy notice to the log. -/
theorem importIdempotent (s : ImportsState) (id : String) (h : id ∉ s.requestedList) :
    (scriptImport s id).requestedList = s.requestedList ++ [id]
    ∧ (scriptImport s id).scriptsPending = s.scriptsPending + 1
    ∧ (scriptImport s id).scriptsCount = s.scriptsCount + 1
    ∧ (scriptImport (scriptImport s id) id).scriptsPending = (scriptImport s id).scriptsPending
    ∧ (scriptImport (scriptImport s id) id).scriptsCount = (scriptImport s id).scriptsCount
    ∧ (scriptImport (scriptImport s id) id).requestedList = (scriptImport s id).requestedList
    ∧ (scriptImport (scriptImport s id) id).importLog =
        (scriptImport s id).importLog ++ ["Redundant import of " ++ id ++ " avoided."] := by
  have hc1 : s.requestedList.contains id = false := by
    simp [h]
  have hstep : scriptImport s id =
      { s with scriptsPending := s.scriptsPending + 1,
               scriptsCount := s.scriptsCount + 1,
               requestedList := s.requestedList ++ [id] } := by
    simp only [scriptImport, hc1]
    rfl
  have hc2 : (scriptImport s id).requestedList.contains id = true := by
    rw [hstep]
    simp
  have hstep2 : scriptImport (scriptImport s id) id =
      { (scriptImport s id) with importLog :=
          (scriptImport s id).importLog ++ ["Redundant import of " ++ id ++ " avoided."] } :=
    scriptImport_dup (scriptImport s id) id hc2
  refine ⟨?_, ?_, ?_, ?_, ?_, ?_, ?_⟩
  · rw [hstep]
  · rw [hstep]
  · rw [hstep]
  · rw [hstep2]
  · rw [hstep2]
  · rw [hstep2]
  · rw [hstep2]

/-- Witness instantiating importIdempotent at a fresh loader state. -/
theorem importIdempotent_witness :
    ("m" ∉ initImports.requestedList)
    ∧ (scriptImport initImports "m").scriptsPending = initImports.scriptsPending + 1
    ∧ (scriptImport (scriptImport initImports "m") "m").scriptsPending =
        (scriptImport initImports "m").scriptsPending :=
  ⟨by decide, (importIdempotent initImports "m" (by decide)).2.1,
    (importIdempotent initImports "m" (by decide)).2.2.2.1⟩

/-- C7: scriptsPending starts at 1; a new distinct request increments it
exactly once and a repeated request leaves it alone; a timeout never
decrements it; a load completion decrements it and fires the settled event
exactly when the decrement reaches zero; and appLoad.load releases the
startup bias unit just before importing the startup script. -/
theorem scriptsPendingInvariant :
    initImports.scriptsPending = 1
    ∧ (∀ (s : ImportsState) (id : String), id ∉ s.requestedList →
        (scriptImport s id).scriptsPending = s.scriptsPending + 1
        ∧ (scriptImport s id).settledCount = s.settledCount)
    ∧ (∀ (s : ImportsState) (id : String), id ∈ s.requestedList →
        (scriptImport s id).scriptsPending = s.scriptsPending)
    ∧ (∀ (s : ImportsState) (id : String),
        (scriptTimeoutEvt s id).scriptsPending = s.scriptsPending
        ∧ (scriptTimeoutEvt s id).settledCount = s.settledCount
        ∧ (scriptTimeoutEvt s id).loadedList = s.loadedList)
    ∧ (∀ (s : ImportsState) (id : String),
        (scriptLoadedEvt s id).scriptsPending = s.scriptsPending - 1
        ∧ (scriptLoadedEvt s id).settledCount =
            (if s.scriptsPending - 1 = 0 then s.settledCount + 1 else s.settledCount))
    ∧ (∀ startup : String, loadStart startup =
        scriptImport { initImports with scriptsPending := initImports.scriptsPending - 1 } startup) := by
  refine ⟨rfl, ?_, ?_, fun s id => ⟨rfl, rfl, rfl⟩, ?_, fun startup => rfl⟩
  · intro s id h
    have hc1 : s.requestedList.contains id = false := by
      simp [h]
    simp only [scriptImport, hc1]
    exact ⟨rfl, rfl⟩
  · intro s id h
    have hc1 : s.requestedList.contains id = true := by
      simp [h]
    simp only [scriptImport, hc1]
    rfl
  · intro s id
    exact ⟨scriptLoadedEvt_pending s id, scriptLoadedEvt_settled s id⟩

/-- Witness instantiating scriptsPendingInvariant at a fresh loader state. -/
theorem scriptsPendingInvariant_witness :
    ("m" ∉ initImports.requestedList)
    ∧ (scriptImport initImports "m").scriptsPending = initImports.scriptsPending + 1
    ∧ (scriptTimeoutEvt initImports "m").scriptsPending = initImports.scriptsPending :=
  ⟨by decide, (scriptsPendingInvariant.2.1 initImports "m" (by decide)).1,
    (scriptsPendingInvariant.2.2.2.1 initImports "m").1⟩

/-! ## Part 2: the readiness gate and entry invocation (cycligent.appLoad, lines 3444-3795) -/

/-- State of the cycligent.appLoad closure: the three readiness flags
(lines 3446-3448), the terminal appLoadFinished flag (line 3449), the
registered observers notifyFunctions (line 3450) as abstract identifiers,
plus observation fields: the sequence of observer invocations, the number
of times main() was invoked, and the number of exceptions caught by the
boundary on line 3575.  testMode mirrors the presence of cycligent.test. -/
structure AppLoadState where
  scriptsReady : Bool
  domReady : Bool
  pageReady : Bool
  appLoadFinished : Bool
  testMode : Bool
  scaffoldingReady : Bool
  notifyFunctions : List Nat
  notifications : List Nat
  mainCalls : Nat
  caughtErrors : Nat
  deriving DecidableEq

/-- The tail of mainGo (lines 3561-3565): set the terminal flag and call
every registered observer in registration order. -/
def finishNotify (s : AppLoadState) : AppLoadState :=
  { s with appLoadFinished := true,
           notifications := s.notifications ++ s.notifyFunctions }

/-- Model of mainGo (lines 3553-3566).  The behaviour of the external entry
point main() is a parameter mb: mb k decides whether its k-th invocation
throws.  The returned flag reports whether mainGo threw: in that case the
flag assignment and the notification loop after the main() call are
skipped, exactly as an exception skips the rest of the JS function body. -/
def mainGo (mb : Nat → Bool) (s : AppLoadState) : AppLoadState × Bool :=
  if s.testMode then
    (finishNotify { s with scaffoldingReady := true }, false)
  else if s.appLoadFinished = false then
    let s1 := { s with mainCalls := s.mainCalls + 1 }
    if mb s.mainCalls then (s1, true) else (finishNotify s1, false)
  else
    (finishNotify s, false)

/-- Model of _executeMain (lines 3536-3579) in the default configuration in
which the exception boundary is active (the try/catch of lines 3572-3577);
a thrown exception is caught and reported via console.error.  The error
reports for still-pending interfaces and classes (lines 3541-3549) do not
change any appLoad field and are omitted here. -/
def executeMain (mb : Nat → Bool) (s : AppLoadState) : AppLoadState :=
  let p := mainGo mb s
  if p.2 then { p.1 with caughtErrors := p.1.caughtErrors + 1 } else p.1

/-- Model of readyCheck (lines 3461-3484): when all three readiness flags
are true the entry sequence _executeMain runs, otherwise nothing happens. -/
def readyCheck (mb : Nat → Bool) (s : AppLoadState) : AppLoadState :=
  if s.scriptsReady && s.domReady && s.pageReady then executeMain mb s else s

/-- A gate state in which all three flags are already true, one observer is
registered, and the application has not yet started. -/
def gateReadyState : AppLoadState :=
  { scriptsReady := true, domReady := true, pageReady := true, appLoadFinished := false,
    testMode := false, scaffoldingReady := false, notifyFunctions := [0],
    notifications := [], mainCalls := 0, caughtErrors := 0 }

/-- C2 counterexample: when the entry point main() throws on its first
invocation, the exception boundary catches and reports the failure, but
the terminal appLoadFinished flag is NOT set and no registered observer is
notified, because the flag assignment and the notification loop sit after
the main() call inside mainGo (lines 3558-3565) and are skipped by the
exception.  This refutes the claim that the finished notification still
fires when main() throws. -/
theorem finishedNotify_counterexample :
    (executeMain (fun _ => true) gateReadyState).mainCalls = 1
    ∧ (executeMain (fun _ => true) gateReadyState).caughtErrors = 1
    ∧ (executeMain (fun _ => true) gateReadyState).appLoadFinished = false
    ∧ (executeMain (fun _ => true) gateReadyState).notifications = [] := by
  decide

/-- C2 amended: after the gate trips, if main() returns normally the
terminal flag is set and every registered observer is notified exactly
once, in registration order; if main() throws, the boundary catches and
reports the failure but the flag stays false and no observer is notified. -/
theorem finishedNotifyAmended (mb : Nat → Bool) (s : AppLoadState)
    (hTest : s.testMode = false) (hFin : s.appLoadFinished = false) :
    (mb s.mainCalls = false →
      (executeMain mb s).appLoadFinished = true
      ∧ (executeMain mb s).notifications = s.notifications ++ s.notifyFunctions
      ∧ (executeMain mb s).mainCalls = s.mainCalls + 1
      ∧ (executeMain mb s).caughtErrors = s.caughtErrors)
    ∧ (mb s.mainCalls = true →
      (executeMain mb s).caughtErrors = s.caughtErrors + 1
      ∧ (executeMain mb s).appLoadFinished = false
      ∧ (executeMain mb s).notifications = s.notifications
      ∧ (executeMain mb s).mainCalls = s.mainCalls + 1) := by
  constructor
  · intro hok
    simp [executeMain, mainGo, hTest, hFin, hok, finishNotify]
  · intro hthrow
    simp [executeMain, mainGo, hTest, hFin, hthrow, finishNotify]

/-- Witness instantiating finishedNotifyAmended at the ready gate state
with a non-throwing entry point. -/
theorem finishedNotifyAmended_witness :
    gateReadyState.testMode = false
    ∧ gateReadyState.appLoadFinished = false
    ∧ ((fun _ => false : Nat → Bool) gateReadyState.mainCalls = false →
      (executeMain (fun _ => false) gateReadyState).appLoadFinished = true
      ∧ (executeMain (fun _ => false) gateReadyState).notifications =
          gateReadyState.notifications ++ gateReadyState.notifyFunctions
      ∧ (executeMain (fun _ => false) gateReadyState).mainCalls = gateReadyState.mainCalls + 1
      ∧ (executeMain (fun _ => false) gateReadyState).caughtErrors = gateReadyState.caughtErrors) :=
  ⟨rfl, rfl, (finishedNotifyAmended (fun _ => false) gateReadyState rfl rfl).1⟩

/-- C5 counterexample: if main() throws on every invocation, evaluating
readyCheck twice after all three flags are true invokes main() twice,
because appLoadFinished is only assigned after main() returns inside
mainGo, so a throwing first run leaves the latch open.  This refutes the
claim that main() runs at most once however often readyCheck is evaluated. -/
theorem mainOnce_counterexample :
    (readyCheck (fun _ => true) (readyCheck (fun _ => true) gateReadyState)).mainCalls = 2 := by
  decide

/-- Invariant used for the amended single-invocation claim. -/
def mainOnceInv (s : AppLoadState) : Prop :=
  s.mainCalls ≤ 1 ∧ (s.appLoadFinished = false → s.mainCalls = 0)

theorem mainOnceInv_step (s : AppLoadState) (hinv : mainOnceInv s) :
    mainOnceInv (readyCheck (fun _ => false) s) := by
  obtain ⟨h1, h2⟩ := hinv
  by_cases hgate : (s.scriptsReady && s.domReady && s.pageReady) = true
  · rw [readyCheck, if_pos hgate]
    by_cases htest : s.testMode = true
    · simp only [executeMain, mainGo, htest, if_true, finishNotify]
      exact ⟨h1, fun h => absurd h (by simp)⟩
    · have htest2 : s.testMode = false := by
        cases hx : s.testMode
        · rfl
        · exact absurd hx htest
      by_cases hfin : s.appLoadFinished = false
      · simp only [executeMain, mainGo, htest2, hfin, if_false, if_true, finishNotify]
        refine ⟨?_, fun h => absurd h (by simp)⟩
        have := h2 hfin
        simp [this]
      · have hfin2 : s.appLoadFinished = true := by
          cases hx : s.appLoadFinished
          · exact absurd hx hfin
          · rfl
        simp only [executeMain, mainGo, htest2, hfin2, finishNotify]
        exact ⟨h1, fun h => absurd h (by simp)⟩
  · rw [readyCheck, if_neg hgate]
    exact ⟨h1, h2⟩

theorem mainOnceInv_iter (n : Nat) (s : AppLoadState) (hinv : mainOnceInv s) :
    mainOnceInv ((readyCheck (fun _ => false))^[n] s) := by
  induction n with
  | zero => exact hinv
  | succ k ih =>
    rw [Function.iterate_succ_apply']
    exact mainOnceInv_step _ ih

/-- C5 amended: provided the entry point main() returns normally, main runs
at most once per page load, no matter how many times readyCheck is
evaluated after all three readiness flags are true. -/
theorem mainAtMostOnceAmended (n : Nat) (s : AppLoadState)
    (hCalls : s.mainCalls = 0) (hFin : s.appLoadFinished = false) :
    ((readyCheck (fun _ => false))^[n] s).mainCalls ≤ 1 :=
  (mainOnceInv_iter n s ⟨by omega, fun _ => hCalls⟩).1

/-- Witness instantiating mainAtMostOnceAmended at the ready gate state. -/
theorem mainAtMostOnceAmended_witness :
    gateReadyState.mainCalls = 0
    ∧ gateReadyState.appLoadFinished = false
    ∧ ((readyCheck (fun _ => false))^[3] gateReadyState).mainCalls ≤ 1 :=
  ⟨rfl, rfl, mainAtMostOnceAmended 3 gateReadyState rfl rfl⟩

/-! ## Part 3: JavaScript values and the namespace tree

The registry stores resolved records in the global object graph rooted at
window.  The JsVal type models the values involved: undefined, primitive
booleans and numbers, plain objects with ordered fields, and function
objects (constructed classes and interfaces) that carry a cyName and, like
every JavaScript function, an assignable field table.  The operations model
sloppy-mode semantics: reading a property of a primitive yields undefined
(boxing), assigning to a property of a primitive is silently ignored, and
reading or assigning a property of undefined throws a TypeError. -/

inductive JsVal where
  | undef : JsVal
  | boolV : Bool → JsVal
  | numV : Int → JsVal
  | obj : List (String × JsVal) → JsVal
  | funcV : Option String → List (String × JsVal) → JsVal

/-- The only JavaScript exception the modelled code can raise. -/
inductive JsErr where
  | typeError : JsErr
  deriving DecidableEq

/-- Truthiness of a JsVal, as used by every if-test in the source. -/
def truthy : JsVal → Bool
  | JsVal.undef => false
  | JsVal.boolV b => b
  | JsVal.numV n => n != 0
  | JsVal.obj _ => true
  | JsVal.funcV _ _ => true

/-- Lookup in an ordered field table. -/
def assocGet : List (String × JsVal) → String → JsVal
  | [], _ => JsVal.undef
  | (k, v) :: rest, key => if k = key then v else assocGet rest key

/-- Update or append in an ordered field table. -/
def assocSet : List (String × JsVal) → String → JsVal → List (String × JsVal)
  | [], key, val => [(key, val)]
  | (k, v) :: rest, key, val =>
      if k = key then (k, val) :: rest else (k, v) :: assocSet rest key val

/-- Total property read: primitives box to a property-less wrapper, so any
read on them yields undefined; reads on undefined are guarded by callers. -/
def getFieldT : JsVal → String → JsVal
  | JsVal.obj fs, key => assocGet fs key
  | JsVal.funcV _ fs, key => assocGet fs key
  | _, _ => JsVal.undef

/-- Total property write: objects and functions are updated, writes to
primitives are silent no-ops, writes to undefined are guarded by callers. -/
def setFieldT : JsVal → String → JsVal → JsVal
  | JsVal.obj fs, key, val => JsVal.obj (assocSet fs key val)
  | JsVal.funcV n fs, key, val => JsVal.funcV n (assocSet fs key val)
  | v, _, _ => v

/-- Property read that throws a TypeError on undefined. -/
def readProp (v : JsVal) (key : String) : Except JsErr JsVal :=
  match v with
  | JsVal.undef => Except.error JsErr.typeError
  | _ => Except.ok (getFieldT v key)

/-- Property write that throws a TypeError on undefined. -/
def assignProp (v : JsVal) (key : String) (val : JsVal) : Except JsErr JsVal :=
  match v with
  | JsVal.undef => Except.error JsErr.typeError
  | _ => Except.ok (setFieldT v key val)

/-- Character-level string split, structurally recursive so that concrete
registry runs reduce inside the kernel; it agrees with the JavaScript
String.split on a one-character separator, including empty segments. -/
def splitSepGo (sep : Char) : List Char → List Char → List String
  | [], acc => [String.mk acc.reverse]
  | c :: cs, acc =>
      if c = sep then String.mk acc.reverse :: splitSepGo sep cs []
      else splitSepGo sep cs (c :: acc)

def splitChar (sep : Char) (s : String) : List String :=
  splitSepGo sep s.data []

/-- Dotted-name split, as name.split on line 2431 and elsewhere. -/
def splitName (name : String) : List String :=
  splitChar '.' name

/-- The whitespace trim of line 2335 (the replace of leading and trailing
runs of whitespace). -/
def trimChars (s : String) : String :=
  String.mk (((s.data.dropWhile Char.isWhitespace).reverse.dropWhile Char.isWhitespace).reverse)

/-- Model of cycligent.definitionGet (lines 2194-2205): walk every segment
of the dotted name from window; an undefined intermediate makes the next
property read throw.  A missing name argument returns undefined (2196). -/
def walkProps (v : JsVal) : List String → Except JsErr JsVal
  | [] => Except.ok v
  | seg :: rest => do
      let x ← readProp v seg
      walkProps x rest

def definitionGet (w : JsVal) : Option String → Except JsErr JsVal
  | none => Except.ok JsVal.undef
  | some n => walkProps w (splitName n)

/-- Model of cycligent.definitionSet (lines 2233-2244): walk all but the
last segment without any guard, then assign the last segment; the in-place
mutation of the JS object graph is rendered by writing the updated subtree
back on the way out. -/
def defSetGo (val : JsVal) : JsVal → List String → Except JsErr JsVal
  | v, [] => Except.ok v
  | v, [last] => assignProp v last val
  | v, seg :: rest => do
      let x ← readProp v seg
      let x2 ← defSetGo val x rest
      Except.ok (setFieldT v seg x2)

def definitionSet (w : JsVal) (name : String) (val : JsVal) : Except JsErr JsVal :=
  defSetGo val w (splitName name)

/-- Total path read from a root value. -/
def getPathT : JsVal → List String → JsVal
  | v, [] => v
  | v, seg :: rest => getPathT (getFieldT v seg) rest

/-- Every step of the path from the root reaches a truthy value. -/
def truthyPath : JsVal → List String → Bool
  | _, [] => true
  | v, seg :: rest => truthy (getFieldT v seg) && truthyPath (getFieldT v seg) rest

/-- The value is an object or a function, i.e. supports real field writes. -/
def isObjLike : JsVal → Bool
  | JsVal.obj _ => true
  | JsVal.funcV _ _ => true
  | _ => false

/-- Receivers along a write path: the root and every intermediate value up
to the assignment receiver are objects or functions. -/
def spineOk : JsVal → List String → Bool
  | _, [] => true
  | v, [_] => isObjLike v
  | v, seg :: rest => isObjLike v && spineOk (getFieldT v seg) rest

/-- Paths on which the materialisation loop of _createAssumedDefinitions
succeeds: every receiver on the path is an object or a function, and where
an existing child is truthy the walk must be able to continue inside it; a
falsy child is replaced by a fresh empty object, below which everything
succeeds.  Truthy primitives sitting on the path are the failure case. -/
def matOk : JsVal → List String → Bool
  | _, [] => true
  | v, seg :: rest =>
      isObjLike v &&
        (if truthy (getFieldT v seg) then matOk (getFieldT v seg) rest else true)

/-! ## Part 4: the registry (classes, interfaces, definitions, lines 2248-3057) -/

/-- Arguments of a cycligent.class call after the implements string has
been split and trimmed (lines 2331-2337). -/
structure ClassArgs where
  name : String
  extendsName : Option String
  impl : Option (List String)
  deriving DecidableEq

/-- Arguments of a cycligent.interface call.  The name is optional because
cycligent.interfaceProcessDeferred passes the cycligent namespace object
itself (whose name property is undefined) in place of a queue entry. -/
structure IfaceArgs where
  name : Option String
  extendsName : Option String
  deriving DecidableEq

/-- Arguments of a cycligent.define call.  Function-valued payloads execute
arbitrary user code and are outside this model; a payload is either absent
or a plain value. -/
structure DefArgs where
  name : String
  defn : Option JsVal
  priority : Option Int

/-- The registry state: the window object graph, the classes and interfaces
truthiness maps (lines 2248-2249), the three deferred worklists (lines
2251-2252, 2849), the priority list (line 2850) and the console.error log. -/
structure RegState where
  window : JsVal
  classes : List (String × Bool)
  interfaces : List (String × Bool)
  classesToProcess : List (Option ClassArgs)
  interfacesToProcess : List (Option IfaceArgs)
  definitionsToProcess : List DefArgs
  priorityDefinitions : List DefArgs
  errors : List String

/-- An empty registry over an empty window object. -/
def freshReg : RegState :=
  { window := JsVal.obj [], classes := [], interfaces := [], classesToProcess := [],
    interfacesToProcess := [], definitionsToProcess := [], priorityDefinitions := [],
    errors := [] }

/-- Truthiness of a map entry: absent and false are both falsy, exactly as
the JS test on cycligent.classes[name]. -/
def mapGetB : List (String × Bool) → String → Bool
  | [], _ => false
  | (k, v) :: rest, key => if k = key then v else mapGetB rest key

/-- Assignment into the classes/interfaces maps. -/
def mapSet : List (String × Bool) → String → Bool → List (String × Bool)
  | [], key, val => [(key, val)]
  | (k, v) :: rest, key, val =>
      if k = key then (k, val) :: rest else (k, v) :: mapSet rest key val

/-- The shared parent-chain walk of classMissing, interfaceMissing and
definitionMissing (lines 2430-2445): for every segment but the last, report
the first segment whose value from window is falsy, as a window-prefixed
dotted name; the walk never reads a property of a falsy value. -/
def chainWalk (v : JsVal) (acc : String) : List String → String
  | [] => ""
  | seg :: rest =>
      let acc2 := acc ++ "." ++ seg
      if truthy (getFieldT v seg) then chainWalk (getFieldT v seg) acc2 rest else acc2

def parentChainMissing (w : JsVal) (segs : List String) : String :=
  chainWalk w "window" segs.dropLast

/-- First implemented interface that is not yet registered (lines 2451-2458). -/
def implMissing (interfaces : List (String × Bool)) : List String → String
  | [] => ""
  | i :: rest => if mapGetB interfaces i then implMissing interfaces rest else i

/-- Model of cycligent.classMissing (lines 2426-2461). -/
def classMissing (st : RegState) (args : ClassArgs) : String :=
  let m1 := parentChainMissing st.window (splitName args.name)
  if m1 ≠ "" then m1
  else
    match args.extendsName with
    | some e =>
        if mapGetB st.classes e then
          match args.impl with
          | some l => implMissing st.interfaces l
          | none => ""
        else e
    | none =>
        match args.impl with
        | some l => implMissing st.interfaces l
        | none => ""

/-- Model of cycligent.definitionMissing (lines 2955-2977). -/
def definitionMissing (st : RegState) (args : DefArgs) : String :=
  parentChainMissing st.window (splitName args.name)

/-- Model of cycligent.interfaceMissing (lines 2746-2772): identical walk,
except that a missing name (the deferred-pass defect) makes the very first
statement args.name.split throw a TypeError. -/
def interfaceMissing (st : RegState) (args : IfaceArgs) : Except JsErr String :=
  match args.name with
  | none => Except.error JsErr.typeError
  | some n =>
      let m1 := parentChainMissing st.window (splitName n)
      if m1 ≠ "" then Except.ok m1
      else
        match args.extendsName with
        | some e => Except.ok (if mapGetB st.interfaces e then "" else e)
        | none => Except.ok ""

/-- JS character class for a word character, as in the regex of line 2515. -/
def isWordChar (c : Char) : Bool := c.isAlphanum || c == '_'

/-- Model of the name extraction args.name.match of lines 2515-2522: the
trailing run of word characters when it is non-empty and directly preceded
by a dot, otherwise the whole name. -/
def classNameForCheck (name : String) : String :=
  let rev := name.data.reverse
  let runRev := rev.takeWhile isWordChar
  let restRev := rev.drop runRev.length
  match restRev with
  | '.' :: _ => if runRev.isEmpty then name else String.mk runRev.reverse
  | _ => name

/-- True when the first character exists and is an ASCII uppercase letter,
as the test substr plus search on line 2524. -/
def isUpperStart (s : String) : Bool :=
  match s.data with
  | [] => false
  | c :: _ => decide ('A' ≤ c) && decide (c ≤ 'Z')

/-- The naming-convention error text of lines 2525-2528 (paraphrased). -/
def upperErrMsg (name : String) : String :=
  "Class " ++ name ++ " should begin with an uppercase letter."

/-- The extend call of lines 2533-2540: a truthy Extends value must be a
function for Extends.extend to exist, otherwise the call throws; a falsy
Extends falls back to Class.extend.  Either way the result is a fresh class
function carrying cyName (line 2633). -/
def extendResult (ext : JsVal) (n : String) : Except JsErr JsVal :=
  if truthy ext then
    match ext with
    | JsVal.funcV _ _ => Except.ok (JsVal.funcV (some n) [])
    | _ => Except.error JsErr.typeError
  else Except.ok (JsVal.funcV (some n) [])

/-- Model of cycligent.classProcess (lines 2510-2639).  The blocks guarded
by cycligent.config.debug (lines 2542-2631) only log and decorate the new
class prototype and are omitted; the unconditional parts are the naming
check, the extend call, the definitionSet of the new class and the classes
map update. -/
def classProcess (st : RegState) (args : ClassArgs) : Except JsErr RegState := do
  let st1 :=
    if isUpperStart (classNameForCheck args.name) then st
    else { st with errors := st.errors ++ [upperErrMsg args.name] }
  let ext ← definitionGet st1.window args.extendsName
  let newClass ← extendResult ext args.name
  let w ← definitionSet st1.window args.name newClass
  Except.ok { st1 with window := w, classes := mapSet st1.classes args.name true }

/-- One front-to-back scan of the classes worklist (lines 2476-2489): a
processed entry is nulled in place, the state threads left to right. -/
def classPassGo (st : RegState) (seen : Bool) :
    List (Option ClassArgs) → Except JsErr (RegState × List (Option ClassArgs) × Bool)
  | [] => Except.ok (st, [], seen)
  | none :: rest => do
      let r ← classPassGo st seen rest
      Except.ok (r.1, none :: r.2.1, r.2.2)
  | some args :: rest =>
      if classMissing st args = "" then do
        let st1 ← classProcess st args
        let r ← classPassGo st1 true rest
        Except.ok (r.1, none :: r.2.1, r.2.2)
      else do
        let r ← classPassGo st seen rest
        Except.ok (r.1, some args :: r.2.1, r.2.2)

/-- The queue compaction of lines 2491-2498: trailing nulls are popped,
then leading nulls are shifted away. -/
def compactQ {α : Type} (q : List (Option α)) : List (Option α) :=
  ((q.reverse.dropWhile (fun x => x.isNone)).reverse).dropWhile (fun x => x.isNone)

/-- The do-while loop of cycligent.classProcessDeferred (lines 2470-2502).
Each repeated pass nulls at least one entry, so queue-length-plus-one
passes always reach the fixed point; the fuel only renders that bound. -/
def classDeferredLoop : Nat → RegState → Except JsErr RegState
  | 0, st => Except.ok st
  | fuel + 1, st => do
      let r ← classPassGo st false st.classesToProcess
      let st2 := { r.1 with classesToProcess := compactQ r.2.1 }
      if r.2.2 then classDeferredLoop fuel st2 else Except.ok st2

def classProcessDeferred (st : RegState) : Except JsErr RegState :=
  classDeferredLoop (st.classesToProcess.length + 1) st

/-- Model of cycligent.class (lines 2327-2350).  The implements string is
split on commas and trimmed (lines 2331-2337); a class whose dependencies
are all present is processed at once followed by a deferred pass, otherwise
it is marked falsy in the classes map and queued. -/
def classRegister (st : RegState) (name : String) (extendsName : Option String)
    (implementsStr : Option String) : Except JsErr RegState :=
  let args : ClassArgs :=
    { name := name, extendsName := extendsName,
      impl := implementsStr.map (fun s => (splitChar ',' s).map trimChars) }
  if classMissing st args = "" then do
    let st1 ← classProcess st args
    classProcessDeferred st1
  else
    Except.ok { st with classes := mapSet st.classes name false,
                        classesToProcess := st.classesToProcess ++ [some args] }

/-- Model of cycligent.interfaceProcess (lines 2829-2843).  In the extends
branch (line 2834) the result of the extend call is discarded instead of
being assigned to the local newInterface, so the following statement
newInterface.cyName (line 2840) dereferences undefined and throws a
TypeError; when the resolved extends value is not a function the extend
call itself throws.  Either way the extends branch always raises. -/
def interfaceProcess (st : RegState) (args : IfaceArgs) : Except JsErr RegState := do
  match args.extendsName with
  | some e => do
      let base ← definitionGet st.window (some e)
      match base with
      | JsVal.funcV _ _ =>
          Except.error JsErr.typeError
      | _ => Except.error JsErr.typeError
  | none =>
      match args.name with
      | none => Except.error JsErr.typeError
      | some n => do
          let newInterface := JsVal.funcV (some n) []
          let w ← definitionSet st.window n newInterface
          Except.ok { st with window := w }

/-- The object cycligent.interfaceProcessDeferred actually hands to
interfaceMissing and interfaceProcess on lines 2795 and 2799: the call
cycligent.interfaceProcessDeferred() binds this to the cycligent namespace
object, which has no name and no extends property. -/
def cycligentThisArgs : IfaceArgs := { name := none, extendsName := none }

/-- One front-to-back scan of the interfaces worklist (lines 2791-2804).
For every non-null entry the scan evaluates interfaceMissing(this) instead
of interfaceMissing(args). -/
def interfacePassGo (st : RegState) (seen : Bool) :
    List (Option IfaceArgs) → Except JsErr (RegState × List (Option IfaceArgs) × Bool)
  | [] => Except.ok (st, [], seen)
  | none :: rest => do
      let r ← interfacePassGo st seen rest
      Except.ok (r.1, none :: r.2.1, r.2.2)
  | some args :: rest => do
      let m ← interfaceMissing st cycligentThisArgs
      if m = "" then do
        let st1 ← interfaceProcess st cycligentThisArgs
        let r ← interfacePassGo st1 true rest
        Except.ok (r.1, none :: r.2.1, r.2.2)
      else do
        let r ← interfacePassGo st seen rest
        Except.ok (r.1, some args :: r.2.1, r.2.2)

/-- The do-while loop of cycligent.interfaceProcessDeferred (lines
2788-2815), with the same fuel rendering as the classes loop, and the
closing classProcessDeferred call of lines 2817-2819. -/
def interfaceDeferredLoop : Nat → Bool → RegState → Except JsErr (RegState × Bool)
  | 0, processed, st => Except.ok (st, processed)
  | fuel + 1, processed, st => do
      let r ← interfacePassGo st false st.interfacesToProcess
      let st2 := { r.1 with interfacesToProcess := compactQ r.2.1 }
      if r.2.2 then interfaceDeferredLoop fuel (processed || r.2.2) st2
      else Except.ok (st2, processed || r.2.2)

def interfaceProcessDeferred (st : RegState) : Except JsErr RegState := do
  let r ← interfaceDeferredLoop (st.interfacesToProcess.length + 1) false st
  if r.2 then classProcessDeferred r.1 else Except.ok r.1

/-- Model of cycligent.interface (lines 2721-2736): when nothing is
missing the interface is processed at once, marked truthy and a deferred
pass runs; otherwise it is marked falsy and queued. -/
def interfaceRegister (st : RegState) (name : String) (extendsName : Option String) :
    Except JsErr RegState := do
  let args : IfaceArgs := { name := some name, extendsName := extendsName }
  let m ← interfaceMissing st args
  if m = "" then do
    let st1 ← interfaceProcess st args
    let st2 := { st1 with interfaces := mapSet st1.interfaces name true }
    interfaceProcessDeferred st2
  else
    Except.ok { st with interfaces := mapSet st.interfaces name false,
                        interfacesToProcess := st.interfacesToProcess ++ [some args] }

/-- Model of cycligent.definitionProcess2 (lines 3035-3057) restricted to
non-function payloads: a falsy or absent payload leaves everything alone, a
truthy priority defers the entry to the priority list, otherwise the value
is written at the dotted name via definitionSet. -/
def definitionProcess2 (st : RegState) (args : DefArgs) : Except JsErr RegState :=
  match args.defn with
  | none => Except.ok st
  | some v =>
      if truthy v = false then Except.ok st
      else if (args.priority.getD 0) != 0 then
        Except.ok { st with priorityDefinitions := st.priorityDefinitions ++ [args] }
      else do
        let w ← definitionSet st.window args.name v
        Except.ok { st with window := w }

/-- Model of cycligent.definitionProcess (lines 3016-3027): create the name
as an empty object when its current value is falsy, then run step two. -/
def definitionProcess (st : RegState) (args : DefArgs) : Except JsErr RegState := do
  let cur ← definitionGet st.window (some args.name)
  let st1 ←
    if truthy cur then Except.ok st
    else do
      let w ← definitionSet st.window args.name (JsVal.obj [])
      Except.ok { st with window := w }
  definitionProcess2 st1 args

/-- One scan of the definitions worklist (lines 2995-3005); a processed
entry is spliced out. -/
def defPassGo (st : RegState) (seen : Bool) :
    List DefArgs → Except JsErr (RegState × List DefArgs × Bool)
  | [] => Except.ok (st, [], seen)
  | d :: rest =>
      if definitionMissing st d = "" then do
        let st1 ← definitionProcess st d
        let r ← defPassGo st1 true rest
        Except.ok (r.1, r.2.1, r.2.2)
      else do
        let r ← defPassGo st seen rest
        Except.ok (r.1, d :: r.2.1, r.2.2)

/-- The do-while loop of cycligent.definitionProcessDeferred (lines
2986-3008), fuel-rendered like the other two worklist loops. -/
def defDeferredLoop : Nat → RegState → Except JsErr RegState
  | 0, st => Except.ok st
  | fuel + 1, st => do
      let r ← defPassGo st false st.definitionsToProcess
      let st2 := { r.1 with definitionsToProcess := r.2.1 }
      if r.2.2 then defDeferredLoop fuel st2 else Except.ok st2

def definitionProcessDeferred (st : RegState) : Except JsErr RegState :=
  defDeferredLoop (st.definitionsToProcess.length + 1) st

/-- Model of cycligent.define (lines 2893-2907) for non-function payloads. -/
def defineReg (st : RegState) (args : DefArgs) : Except JsErr RegState :=
  if definitionMissing st args = "" then do
    let st1 ← definitionProcess st args
    definitionProcessDeferred st1
  else
    Except.ok { st with definitionsToProcess := st.definitionsToProcess ++ [args] }

/-- The materialisation walk of _createAssumedDefinitions (lines
3500-3509): for every segment, a falsy current value is replaced by an
empty object (a silent no-op on primitive receivers), then the walk
descends into the re-read value; reading a property of undefined throws. -/
def matPath (v : JsVal) : List String → Except JsErr JsVal
  | [] => Except.ok v
  | seg :: rest => do
      let cur ← readProp v seg
      let v1 := if truthy cur then v else setFieldT v seg (JsVal.obj [])
      let cur1 := getFieldT v1 seg
      let cur2 ← matPath cur1 rest
      Except.ok (setFieldT v1 seg cur2)

/-- The per-entry body of the loop of _createAssumedDefinitions (lines
3496-3512): materialise the path of the pending definition, then run
definitionProcess2; the worklist itself is not emptied by this function. -/
def createAssumedGo (st : RegState) : List DefArgs → Except JsErr RegState
  | [] => Except.ok st
  | d :: ds => do
      let w ← matPath st.window (splitName d.name)
      let st1 ← definitionProcess2 { st with window := w } d
      createAssumedGo st1 ds

/-- Model of _createAssumedDefinitions (lines 3491-3518) up to and
including the two deferred passes of lines 3514-3515; the tail call
_allScriptsLoaded2 (priority execution and readiness check) belongs to the
appLoad model. -/
def createAssumed (st : RegState) : Except JsErr RegState := do
  let st1 ← createAssumedGo st st.definitionsToProcess
  let st2 ← classProcessDeferred st1
  interfaceProcessDeferred st2

/-! ## Part 5: concrete registry claims -/

/-- Decidable equality of Except results with decidable components. -/
instance {e a : Type} [DecidableEq e] [DecidableEq a] : DecidableEq (Except e a) := by
  intro x y
  cases x <;> cases y
  case error.error u v =>
    by_cases h : u = v
    · exact isTrue (by rw [h])
    · exact isFalse (by intro hh; cases hh; exact h rfl)
  case error.ok u v => exact isFalse (by intro hh; cases hh)
  case ok.error u v => exact isFalse (by intro hh; cases hh)
  case ok.ok u v =>
    by_cases h : u = v
    · exact isTrue (by rw [h])
    · exact isFalse (by intro hh; cases hh; exact h rfl)

/-- C3: registering interface I1 (no dependencies) succeeds and marks it
truthy, but then registering interface I2 with extends I1 - processed
immediately because I1 is present - throws a TypeError out of
cycligent.interface, because interfaceProcess never assigns the extend
result to newInterface (line 2834) before dereferencing it on line 2840.
This contradicts the propagation policy that no error is thrown across the
registration boundary; the code, not the claim, is at fault, since the
symmetric classProcess does assign its extend result. -/
theorem interfaceExtendsThrows :
    (interfaceRegister freshReg "I1" none).map (fun s => mapGetB s.interfaces "I1")
      = Except.ok true
    ∧ ((do
        let s1 ← interfaceRegister freshReg "I1" none
        interfaceRegister s1 "I2" (some "I1") : Except JsErr RegState)).map
        (fun s => mapGetB s.interfaces "I2")
      = Except.error JsErr.typeError := by
  exact ⟨by decide, by decide⟩

/-- C4 scenario states: interface I registered first, then class C with
extends B and implements I before B exists, then class B. -/
def c4mid : Except JsErr RegState := do
  let s1 ← interfaceRegister freshReg "I" none
  classRegister s1 "C" (some "B") (some "I")

def c4final : Except JsErr RegState := do
  let s2 ← c4mid
  classRegister s2 "B" none none

/-- C4: after interface I and class C (extends the unregistered B,
implements I) are registered, C is pending: its classes entry is falsy and
it sits in the deferred worklist.  Registering B then processes B at once
and the deferred pass triggered by the same cycligent.class call resolves C
in the same composite pass: both classes end truthy, the worklist is empty
and the resolved C value is installed under window.C. -/
theorem deferredClassScenario :
    c4mid.map (fun s => (mapGetB s.classes "C", mapGetB s.interfaces "I",
        s.classesToProcess.length)) = Except.ok (false, true, 1)
    ∧ c4final.map (fun s => (mapGetB s.classes "B", mapGetB s.classes "C",
        s.classesToProcess.length, truthy (getFieldT s.window "C"),
        truthy (getFieldT s.window "B"))) = Except.ok (true, true, 0, true, true) := by
  exact ⟨by decide, by decide⟩

/-- Helper for C10: any worklist scan that meets a non-null entry evaluates
interfaceMissing on the cycligent namespace object, whose missing name
makes args.name.split throw. -/
theorem interfacePassGo_stuck (q : List (Option IfaceArgs)) :
    ∀ (st : RegState) (seen : Bool), (∃ a, some a ∈ q) →
      interfacePassGo st seen q = Except.error JsErr.typeError := by
  induction q with
  | nil =>
    intro st seen h
    obtain ⟨a, ha⟩ := h
    simp at ha
  | cons e rest ih =>
    intro st seen h
    obtain ⟨a, ha⟩ := h
    cases e with
    | none =>
      have hmem : some a ∈ rest := by
        rcases List.mem_cons.mp ha with h1 | h1
        · exact absurd h1 (by simp)
        · exact h1
      simp only [interfacePassGo]
      rw [ih st seen ⟨a, hmem⟩]
      rfl
    | some args =>
      simp only [interfacePassGo]
      rfl

/-- C10: whenever the deferred-interface worklist holds an entry, running
cycligent.interfaceProcessDeferred throws a TypeError: lines 2795 and 2799
pass this (the cycligent namespace object, whose name property is
undefined) instead of the queue entry, so interfaceMissing evaluates
args.name.split on undefined.  Consequently the run produces no new state
and a deferred interface is never resolved by a later pass. -/
theorem interfaceDeferredStuck (st : RegState) (a : IfaceArgs)
    (h : some a ∈ st.interfacesToProcess) :
    interfaceProcessDeferred st = Except.error JsErr.typeError := by
  have hq := interfacePassGo_stuck st.interfacesToProcess st false ⟨a, h⟩
  simp only [interfaceProcessDeferred, interfaceDeferredLoop, hq]
  rfl

/-- A registry whose interface worklist holds one deferred entry. -/
def stuckReg : RegState :=
  { freshReg with interfacesToProcess := [some { name := some "J", extendsName := some "K" }] }

/-- Witness instantiating interfaceDeferredStuck at a singleton worklist. -/
theorem interfaceDeferredStuck_witness :
    (some { name := some "J", extendsName := some "K" } : Option IfaceArgs)
        ∈ stuckReg.interfacesToProcess
    ∧ interfaceProcessDeferred stuckReg = Except.error JsErr.typeError :=
  ⟨by simp [stuckReg, freshReg],
    interfaceDeferredStuck stuckReg { name := some "J", extendsName := some "K" }
      (by simp [stuckReg, freshReg])⟩

/-- A registry whose window already holds an object at foo. -/
def regFooWin : RegState :=
  { freshReg with window := JsVal.obj [("foo", JsVal.obj [])] }

/-- C9 counterexample: the class name foo.Bar has a leading path segment
foo that fails the uppercase naming convention, yet registering it logs no
error at all, because classProcess checks the final segment Bar (regex
match of line 2515), not the leading one; the registration proceeds and the
class is stored.  A claim tying the check to the leading segment is
therefore false. -/
theorem classNamingCheck_counterexample :
    (splitName "foo.Bar").head? = some "foo"
    ∧ isUpperStart "foo" = false
    ∧ classNameForCheck "foo.Bar" = "Bar"
    ∧ (classRegister regFooWin "foo.Bar" none none).map
        (fun s => (s.errors.length, mapGetB s.classes "foo.Bar",
          truthy (getPathT s.window ["foo", "Bar"]))) = Except.ok (0, true, true) := by
  exact ⟨by decide, by decide, by decide, by decide⟩

/-! ## Part 6: structural lemmas about the namespace tree operations -/

theorem ok_bind {e a b : Type} (v : a) (f : a → Except e b) :
    (Except.ok v >>= f) = f v := rfl

theorem error_bind {e a b : Type} (u : e) (f : a → Except e b) :
    ((Except.error u : Except e a) >>= f) = Except.error u := rfl

theorem except_bind_ok {e a b : Type} (x : Except e a) (f : a → Except e b) (y : b)
    (h : (x >>= f) = Except.ok y) : ∃ v, x = Except.ok v ∧ f v = Except.ok y := by
  cases x with
  | error u => exact absurd h (by rw [error_bind]; intro hh; cases hh)
  | ok v => exact ⟨v, rfl, by rw [ok_bind] at h; exact h⟩

theorem assocGet_assocSet_same (fs : List (String × JsVal)) (k : String) (x : JsVal) :
    assocGet (assocSet fs k x) k = x := by
  induction fs with
  | nil => simp [assocGet, assocSet]
  | cons kv rest ih =>
    by_cases h : kv.1 = k
    · simp [assocSet, assocGet, h]
    · simp [assocSet, assocGet, h, ih]

theorem assocGet_assocSet_other (fs : List (String × JsVal)) (k k2 : String) (x : JsVal)
    (h : k ≠ k2) : assocGet (assocSet fs k x) k2 = assocGet fs k2 := by
  induction fs with
  | nil => simp [assocGet, assocSet, h]
  | cons kv rest ih =>
    by_cases h1 : kv.1 = k
    · simp [assocSet, assocGet, h1, h]
    · simp [assocSet, assocGet, h1, ih]

theorem assocSet_assocSet_same (fs : List (String × JsVal)) (k : String) (x y : JsVal) :
    assocSet (assocSet fs k x) k y = assocSet fs k y := by
  induction fs with
  | nil => simp [assocSet]
  | cons kv rest ih =>
    by_cases h : kv.1 = k
    · simp [assocSet, h]
    · simp [assocSet, h, ih]

theorem getFieldT_setFieldT_same (v : JsVal) (k : String) (x : JsVal)
    (h : isObjLike v = true) : getFieldT (setFieldT v k x) k = x := by
  cases v <;> simp [isObjLike] at h <;>
    simp [setFieldT, getFieldT, assocGet_assocSet_same]

theorem getFieldT_setFieldT_other (v : JsVal) (k k2 : String) (x : JsVal)
    (h : k ≠ k2) : getFieldT (setFieldT v k x) k2 = getFieldT v k2 := by
  cases v <;> simp [setFieldT, getFieldT, assocGet_assocSet_other _ _ _ _ h]

theorem isObjLike_setFieldT (v : JsVal) (k : String) (x : JsVal) :
    isObjLike (setFieldT v k x) = isObjLike v := by
  cases v <;> rfl

theorem setFieldT_setFieldT_same (v : JsVal) (k : String) (x y : JsVal) :
    setFieldT (setFieldT v k x) k y = setFieldT v k y := by
  cases v <;> simp [setFieldT, assocSet_assocSet_same]

theorem truthy_of_isObjLike (v : JsVal) (h : isObjLike v = true) : truthy v = true := by
  cases v <;> simp [isObjLike] at h <;> rfl

theorem readProp_of_isObjLike (v : JsVal) (k : String) (h : isObjLike v = true) :
    readProp v k = Except.ok (getFieldT v k) := by
  cases v <;> simp [isObjLike] at h <;> rfl

theorem spineOk_head (v : JsVal) (p : List String) (h : spineOk v p = true)
    (hne : p ≠ []) : isObjLike v = true := by
  cases p with
  | nil => exact absurd rfl hne
  | cons s rest =>
    cases rest with
    | nil => exact h
    | cons r rs =>
      simp [spineOk] at h
      exact h.1

theorem chainWalk_of_spineOk (p : List String) :
    ∀ (v : JsVal) (acc : String), spineOk v p = true → chainWalk v acc p.dropLast = "" := by
  induction p with
  | nil => intro v acc _; rfl
  | cons s rest ih =>
    intro v acc h
    cases rest with
    | nil => rfl
    | cons r rs =>
      simp only [spineOk, Bool.and_eq_true] at h
      have h1 : isObjLike v = true := h.1
      have h2 : spineOk (getFieldT v s) (r :: rs) = true := h.2
      have hchild : isObjLike (getFieldT v s) = true := spineOk_head _ _ h2 (by simp)
      have htr : truthy (getFieldT v s) = true := truthy_of_isObjLike _ hchild
      show chainWalk v acc (s :: (r :: rs).dropLast) = ""
      simp only [chainWalk, htr, if_true]
      exact ih (getFieldT v s) (acc ++ "." ++ s) h2

theorem matOk_fresh (q : List String) : matOk (JsVal.obj []) q = true := by
  cases q with
  | nil => rfl
  | cons t qr => simp [matOk, isObjLike, getFieldT, assocGet, truthy]

/-- Materialising any path inside a fresh empty object succeeds and yields
a tree of plain objects in which every further materialisation succeeds. -/
theorem matPath_fresh (p : List String) :
    ∃ w, matPath (JsVal.obj []) p = Except.ok w
      ∧ isObjLike w = true
      ∧ truthyPath w p = true
      ∧ spineOk w p = true
      ∧ (∀ q, matOk w q = true) := by
  induction p with
  | nil =>
    exact ⟨JsVal.obj [], rfl, rfl, rfl, rfl, matOk_fresh⟩
  | cons s rest ih =>
    obtain ⟨w2, hw2, hobj2, htp2, hsp2, hmat2⟩ := ih
    refine ⟨JsVal.obj [(s, w2)], ?_, rfl, ?_, ?_, ?_⟩
    · simp [matPath, readProp, getFieldT, assocGet, truthy, setFieldT, assocSet, hw2, ok_bind]
    · simp [truthyPath, getFieldT, assocGet, truthy_of_isObjLike _ hobj2, htp2]
    · cases rest with
      | nil => rfl
      | cons r rs => simp [spineOk, getFieldT, assocGet, isObjLike, hsp2]
    · intro q
      cases q with
      | nil => rfl
      | cons t qr =>
        by_cases h : t = s
        · subst h
          simp [matOk, isObjLike, getFieldT, assocGet, truthy_of_isObjLike _ hobj2, hmat2]
        · have hne : s ≠ t := fun hh => h hh.symm
          simp [matOk, isObjLike, getFieldT, assocGet, hne, truthy]

/-- Materialisation along a matOk path from an object-like root succeeds,
makes the whole path truthy with an object-like spine, and preserves both
the truthiness of every path and the materialisability of every path. -/
theorem matPath_ok (p : List String) :
    ∀ (v : JsVal), isObjLike v = true → matOk v p = true →
    ∃ w, matPath v p = Except.ok w
      ∧ isObjLike w = true
      ∧ truthyPath w p = true
      ∧ spineOk w p = true
      ∧ (∀ q, truthyPath v q = true → truthyPath w q = true)
      ∧ (∀ q, matOk v q = true → matOk w q = true) := by
  induction p with
  | nil =>
    intro v hv _
    exact ⟨v, rfl, hv, rfl, rfl, fun q h => h, fun q h => h⟩
  | cons s rest ih =>
    intro v hv hmat
    simp only [matOk, Bool.and_eq_true] at hmat
    have hmat2 := hmat.2
    have heq : matPath v (s :: rest) =
        (matPath (getFieldT (if truthy (getFieldT v s) then v
            else setFieldT v s (JsVal.obj [])) s) rest
          >>= fun cur2 => Except.ok (setFieldT (if truthy (getFieldT v s) then v
            else setFieldT v s (JsVal.obj [])) s cur2)) := by
      simp only [matPath, readProp_of_isObjLike v s hv, ok_bind]
    by_cases htr : truthy (getFieldT v s) = true
    · rw [if_pos htr] at hmat2
      rw [if_pos htr] at heq
      cases rest with
      | nil =>
        refine ⟨setFieldT v s (getFieldT v s), ?_, ?_, ?_, ?_, ?_, ?_⟩
        · rw [heq]; rfl
        · rw [isObjLike_setFieldT]; exact hv
        · simp [truthyPath, getFieldT_setFieldT_same v s _ hv, htr]
        · show isObjLike (setFieldT v s (getFieldT v s)) = true
          rw [isObjLike_setFieldT]; exact hv
        · intro q hq
          cases q with
          | nil => rfl
          | cons t qr =>
            by_cases hts : t = s
            · subst hts
              simpa [truthyPath, getFieldT_setFieldT_same v t _ hv] using hq
            · have hne : s ≠ t := fun hh => hts hh.symm
              simpa [truthyPath, getFieldT_setFieldT_other v s t _ hne] using hq
        · intro q hq
          cases q with
          | nil => rfl
          | cons t qr =>
            by_cases hts : t = s
            · subst hts
              simpa [matOk, isObjLike_setFieldT, getFieldT_setFieldT_same v t _ hv] using hq
            · have hne : s ≠ t := fun hh => hts hh.symm
              simpa [matOk, isObjLike_setFieldT,
                getFieldT_setFieldT_other v s t _ hne] using hq
      | cons r rs =>
        have hchildObj : isObjLike (getFieldT v s) = true := by
          simp only [matOk, Bool.and_eq_true] at hmat2
          exact hmat2.1
        obtain ⟨w2, hw2, hobj2, htp2, hsp2, hpresT, hpresM⟩ :=
          ih (getFieldT v s) hchildObj hmat2
        refine ⟨setFieldT v s w2, ?_, ?_, ?_, ?_, ?_, ?_⟩
        · rw [heq, hw2]; rfl
        · rw [isObjLike_setFieldT]; exact hv
        · have h3 : truthyPath (setFieldT v s w2) (s :: r :: rs)
              = (truthy (getFieldT (setFieldT v s w2) s)
                  && truthyPath (getFieldT (setFieldT v s w2) s) (r :: rs)) := rfl
          rw [h3, getFieldT_setFieldT_same v s _ hv, truthy_of_isObjLike _ hobj2, htp2]
          rfl
        · have h4 : spineOk (setFieldT v s w2) (s :: r :: rs)
              = (isObjLike (setFieldT v s w2)
                  && spineOk (getFieldT (setFieldT v s w2) s) (r :: rs)) := rfl
          rw [h4, isObjLike_setFieldT, hv, getFieldT_setFieldT_same v s _ hv, hsp2]
          rfl
        · intro q hq
          cases q with
          | nil => rfl
          | cons t qr =>
            by_cases hts : t = s
            · subst hts
              simp only [truthyPath, Bool.and_eq_true] at hq
              simp [truthyPath, getFieldT_setFieldT_same v t _ hv,
                truthy_of_isObjLike _ hobj2, hpresT qr hq.2]
            · have hne : s ≠ t := fun hh => hts hh.symm
              simpa [truthyPath, getFieldT_setFieldT_other v s t _ hne] using hq
        · intro q hq
          cases q with
          | nil => rfl
          | cons t qr =>
            by_cases hts : t = s
            · subst hts
              simp only [matOk, Bool.and_eq_true, htr, if_true] at hq
              simp [matOk, isObjLike_setFieldT, hv, getFieldT_setFieldT_same v t _ hv,
                truthy_of_isObjLike _ hobj2, hpresM qr hq.2]
            · have hne : s ≠ t := fun hh => hts hh.symm
              simpa [matOk, isObjLike_setFieldT,
                getFieldT_setFieldT_other v s t _ hne] using hq
    · have htr2 : truthy (getFieldT v s) = false := by
        cases hx : truthy (getFieldT v s)
        · rfl
        · exact absurd hx htr
      rw [if_neg htr] at heq
      have hcur1 : getFieldT (setFieldT v s (JsVal.obj [])) s = JsVal.obj [] :=
        getFieldT_setFieldT_same v s _ hv
      rw [hcur1] at heq
      obtain ⟨w2, hw2, hobj2, htp2, hsp2, hmatAll⟩ := matPath_fresh rest
      refine ⟨setFieldT v s w2, ?_, ?_, ?_, ?_, ?_, ?_⟩
      · rw [heq, hw2, ok_bind, setFieldT_setFieldT_same]
      · rw [isObjLike_setFieldT]; exact hv
      · simp [truthyPath, getFieldT_setFieldT_same v s _ hv,
          truthy_of_isObjLike _ hobj2, htp2]
      · cases rest with
        | nil =>
          show isObjLike (setFieldT v s w2) = true
          rw [isObjLike_setFieldT]; exact hv
        | cons r rs =>
          simp [spineOk, isObjLike_setFieldT, hv,
            getFieldT_setFieldT_same v s _ hv, hsp2]
      · intro q hq
        cases q with
        | nil => rfl
        | cons t qr =>
          by_cases hts : t = s
          · subst hts
            simp only [truthyPath, Bool.and_eq_true] at hq
            rw [htr2] at hq
            exact absurd hq.1 (by simp)
          · have hne : s ≠ t := fun hh => hts hh.symm
            simpa [truthyPath, getFieldT_setFieldT_other v s t _ hne] using hq
      · intro q hq
        cases q with
        | nil => rfl
        | cons t qr =>
          by_cases hts : t = s
          · subst hts
            simp [matOk, isObjLike_setFieldT, hv, getFieldT_setFieldT_same v t _ hv,
              truthy_of_isObjLike _ hobj2, hmatAll qr]
          · have hne : s ≠ t := fun hh => hts hh.symm
            simpa [matOk, isObjLike_setFieldT,
              getFieldT_setFieldT_other v s t _ hne] using hq

theorem truthyPath_setFieldT_other (v x : JsVal) (s t : String) (qr : List String)
    (h : s ≠ t) : truthyPath (setFieldT v s x) (t :: qr) = truthyPath v (t :: qr) := by
  have e : getFieldT (setFieldT v s x) t = getFieldT v t := getFieldT_setFieldT_other v s t x h
  show (truthy (getFieldT (setFieldT v s x) t) && truthyPath (getFieldT (setFieldT v s x) t) qr)
      = (truthy (getFieldT v t) && truthyPath (getFieldT v t) qr)
  rw [e]

theorem matOk_setFieldT_other (v x : JsVal) (s t : String) (qr : List String)
    (h : s ≠ t) : matOk (setFieldT v s x) (t :: qr) = matOk v (t :: qr) := by
  have e : getFieldT (setFieldT v s x) t = getFieldT v t := getFieldT_setFieldT_other v s t x h
  show (isObjLike (setFieldT v s x) && (if truthy (getFieldT (setFieldT v s x) t)
        then matOk (getFieldT (setFieldT v s x) t) qr else true))
      = (isObjLike v && (if truthy (getFieldT v t) then matOk (getFieldT v t) qr else true))
  rw [e, isObjLike_setFieldT]

theorem truthyPath_setFieldT_same_key (v x : JsVal) (s : String) (qr : List String)
    (hv : isObjLike v = true) :
    truthyPath (setFieldT v s x) (s :: qr) = (truthy x && truthyPath x qr) := by
  show (truthy (getFieldT (setFieldT v s x) s) && truthyPath (getFieldT (setFieldT v s x) s) qr)
      = (truthy x && truthyPath x qr)
  rw [getFieldT_setFieldT_same v s x hv]

theorem matOk_setFieldT_same_key (v x : JsVal) (s : String) (qr : List String)
    (hv : isObjLike v = true) :
    matOk (setFieldT v s x) (s :: qr)
      = (isObjLike v && (if truthy x then matOk x qr else true)) := by
  show (isObjLike (setFieldT v s x) && (if truthy (getFieldT (setFieldT v s x) s)
        then matOk (getFieldT (setFieldT v s x) s) qr else true))
      = (isObjLike v && (if truthy x then matOk x qr else true))
  rw [getFieldT_setFieldT_same v s x hv, isObjLike_setFieldT]

/-- One dotted name strictly below another: the second path properly
extends the first. -/
def strictExtOf : List String → List String → Bool
  | [], [] => false
  | [], _ :: _ => true
  | _ :: _, [] => false
  | a :: p, b :: q => a == b && strictExtOf p q

theorem strictExtOf_nil_false (q : List String) (h : strictExtOf [] q = false) : q = [] := by
  cases q with
  | nil => rfl
  | cons t qr => exact absurd h (by simp [strictExtOf])

theorem assignProp_of_isObjLike (v : JsVal) (k : String) (x : JsVal)
    (h : isObjLike v = true) : assignProp v k x = Except.ok (setFieldT v k x) := by
  cases v <;> simp [isObjLike] at h <;> rfl

/-- Writing a truthy value along an object-like spine succeeds, leaves the
whole path truthy, and preserves the truthiness and materialisability of
every path that does not strictly extend the written one. -/
theorem defSetGo_ok (p : List String) :
    ∀ (v : JsVal) (val : JsVal), spineOk v p = true → truthy val = true →
    ∃ w, defSetGo val v p = Except.ok w
      ∧ isObjLike w = isObjLike v
      ∧ truthyPath w p = true
      ∧ (∀ q, strictExtOf p q = false →
          (truthyPath v q = true → truthyPath w q = true)
          ∧ (matOk v q = true → matOk w q = true)) := by
  induction p with
  | nil =>
    intro v val _ _
    exact ⟨v, rfl, rfl, rfl, fun q _ => ⟨fun h => h, fun h => h⟩⟩
  | cons s rest ih =>
    intro v val hsp hval
    cases rest with
    | nil =>
      have hv : isObjLike v = true := hsp
      refine ⟨setFieldT v s val, ?_, isObjLike_setFieldT v s val, ?_, ?_⟩
      · show assignProp v s val = Except.ok (setFieldT v s val)
        exact assignProp_of_isObjLike v s val hv
      · rw [truthyPath_setFieldT_same_key v val s [] hv, hval]
        rfl
      · intro q hq
        cases q with
        | nil => exact ⟨fun h => h, fun h => h⟩
        | cons t qr =>
          by_cases hts : t = s
          · subst hts
            have hqq : strictExtOf [] qr = false := by
              simpa [strictExtOf] using hq
            have hqr : qr = [] := strictExtOf_nil_false qr hqq
            subst hqr
            constructor
            · intro _
              rw [truthyPath_setFieldT_same_key v val t [] hv, hval]
              rfl
            · intro hm
              have hvv : isObjLike v = true := by
                simp only [matOk, Bool.and_eq_true] at hm
                exact hm.1
              rw [matOk_setFieldT_same_key v val t [] hv, hvv]
              cases hx : truthy val <;> simp [matOk]
          · have hne : t ≠ s := hts
            have hne2 : s ≠ t := fun hh => hne hh.symm
            rw [truthyPath_setFieldT_other v val s t qr hne2,
              matOk_setFieldT_other v val s t qr hne2]
            exact ⟨fun h => h, fun h => h⟩
    | cons r rs =>
      simp only [spineOk, Bool.and_eq_true] at hsp
      have hv : isObjLike v = true := hsp.1
      have hspChild : spineOk (getFieldT v s) (r :: rs) = true := hsp.2
      have hchildObj : isObjLike (getFieldT v s) = true :=
        spineOk_head _ _ hspChild (by simp)
      obtain ⟨w2, hw2, hobj2, htp2, hpres⟩ := ih (getFieldT v s) val hspChild hval
      have hobj2t : isObjLike w2 = true := hobj2.trans hchildObj
      refine ⟨setFieldT v s w2, ?_, isObjLike_setFieldT v s w2, ?_, ?_⟩
      · show (readProp v s >>= fun x =>
            defSetGo val x (r :: rs) >>= fun x2 => Except.ok (setFieldT v s x2))
            = Except.ok (setFieldT v s w2)
        rw [readProp_of_isObjLike v s hv, ok_bind, hw2, ok_bind]
      · rw [truthyPath_setFieldT_same_key v w2 s (r :: rs) hv,
          truthy_of_isObjLike _ hobj2t, htp2]
        rfl
      · intro q hq
        cases q with
        | nil => exact ⟨fun h => h, fun h => h⟩
        | cons t qr =>
          by_cases hts : t = s
          · subst hts
            have hqq : strictExtOf (r :: rs) qr = false := by
              simpa [strictExtOf] using hq
            constructor
            · intro hh
              have hh2 : truthy (getFieldT v t) = true ∧ truthyPath (getFieldT v t) qr = true := by
                have e : truthyPath v (t :: qr)
                    = (truthy (getFieldT v t) && truthyPath (getFieldT v t) qr) := rfl
                rw [e, Bool.and_eq_true] at hh
                exact hh
              rw [truthyPath_setFieldT_same_key v w2 t qr hv,
                truthy_of_isObjLike _ hobj2t, (hpres qr hqq).1 hh2.2]
              rfl
            · intro hm
              have hm2 : (if truthy (getFieldT v t) then matOk (getFieldT v t) qr else true)
                  = true := by
                have e : matOk v (t :: qr) = (isObjLike v && (if truthy (getFieldT v t)
                    then matOk (getFieldT v t) qr else true)) := rfl
                rw [e, Bool.and_eq_true] at hm
                exact hm.2
              have hmc : matOk (getFieldT v t) qr = true := by
                rw [if_pos (truthy_of_isObjLike _ hchildObj)] at hm2
                exact hm2
              rw [matOk_setFieldT_same_key v w2 t qr hv, hv,
                if_pos (truthy_of_isObjLike _ hobj2t), (hpres qr hqq).2 hmc]
              rfl
          · have hne2 : s ≠ t := fun hh => hts hh.symm
            rw [truthyPath_setFieldT_other v w2 s t qr hne2,
              matOk_setFieldT_other v w2 s t qr hne2]
            exact ⟨fun h => h, fun h => h⟩

/-- Running definitionProcess2 on a definition whose path has just been
materialised succeeds, keeps the path truthy (installing the payload where
there is one), touches neither registry maps nor worklists, and preserves
every path that does not strictly extend the written one. -/
theorem definitionProcess2_ok (st : RegState) (d : DefArgs)
    (hsp : spineOk st.window (splitName d.name) = true)
    (htp : truthyPath st.window (splitName d.name) = true) :
    ∃ st2, definitionProcess2 st d = Except.ok st2
      ∧ isObjLike st2.window = isObjLike st.window
      ∧ truthyPath st2.window (splitName d.name) = true
      ∧ st2.classes = st.classes
      ∧ st2.interfaces = st.interfaces
      ∧ st2.classesToProcess = st.classesToProcess
      ∧ st2.interfacesToProcess = st.interfacesToProcess
      ∧ st2.definitionsToProcess = st.definitionsToProcess
      ∧ (∀ q, strictExtOf (splitName d.name) q = false →
          (truthyPath st.window q = true → truthyPath st2.window q = true)
          ∧ (matOk st.window q = true → matOk st2.window q = true)) := by
  cases hd : d.defn with
  | none =>
    refine ⟨st, ?_, rfl, htp, rfl, rfl, rfl, rfl, rfl, fun q _ => ⟨fun h => h, fun h => h⟩⟩
    simp only [definitionProcess2, hd]
  | some v =>
    by_cases htv : truthy v = true
    · by_cases hpr : ((d.priority.getD 0) != 0) = true
      · refine ⟨{ st with priorityDefinitions := st.priorityDefinitions ++ [d] }, ?_,
          rfl, htp, rfl, rfl, rfl, rfl, rfl, fun q _ => ⟨fun h => h, fun h => h⟩⟩
        simp only [definitionProcess2, hd, htv, hpr]
        simp
      · obtain ⟨w, hw, hobj, htpw, hpres⟩ :=
          defSetGo_ok (splitName d.name) st.window v hsp htv
        refine ⟨{ st with window := w }, ?_, hobj, htpw, rfl, rfl, rfl, rfl, rfl, hpres⟩
        simp only [definitionProcess2, hd, htv]
        rw [if_neg (by simp), if_neg hpr]
        show (definitionSet st.window d.name v >>= fun w2 =>
            Except.ok { st with window := w2 }) = Except.ok { st with window := w }
        rw [show definitionSet st.window d.name v = defSetGo v st.window (splitName d.name)
          from rfl, hw, ok_bind]
    · have htv2 : truthy v = false := by
        cases hx : truthy v
        · rfl
        · exact absurd hx htv
      refine ⟨st, ?_, rfl, htp, rfl, rfl, rfl, rfl, rfl, fun q _ => ⟨fun h => h, fun h => h⟩⟩
      simp only [definitionProcess2, hd, htv2]
      simp

/-- The pairwise separation condition on pending definitions: neither name
is a strict ancestor of the other. -/
def sepDefs (a b : DefArgs) : Prop :=
  strictExtOf (splitName a.name) (splitName b.name) = false
  ∧ strictExtOf (splitName b.name) (splitName a.name) = false

/-- The per-entry loop of the force-placeholder step resolves every listed
definition to a truthy value, provided the window is object-like, every
listed path is materialisable, no listed name strictly extends another, and
the already-guaranteed paths P are not strictly extended by listed names. -/
theorem createAssumedGo_ok (ds : List DefArgs) :
    ∀ (st : RegState) (P : List (List String)),
      isObjLike st.window = true →
      (∀ d ∈ ds, matOk st.window (splitName d.name) = true) →
      ds.Pairwise sepDefs →
      (∀ p ∈ P, truthyPath st.window p = true) →
      (∀ d ∈ ds, ∀ p ∈ P, strictExtOf (splitName d.name) p = false) →
    ∃ st2, createAssumedGo st ds = Except.ok st2
      ∧ isObjLike st2.window = true
      ∧ (∀ d ∈ ds, truthyPath st2.window (splitName d.name) = true)
      ∧ (∀ p ∈ P, truthyPath st2.window p = true)
      ∧ st2.classes = st.classes
      ∧ st2.interfaces = st.interfaces
      ∧ st2.classesToProcess = st.classesToProcess
      ∧ st2.interfacesToProcess = st.interfacesToProcess := by
  induction ds with
  | nil =>
    intro st P hW _ _ hP _
    exact ⟨st, rfl, hW, by simp, hP, rfl, rfl, rfl, rfl⟩
  | cons d ds ih =>
    intro st P hW hMat hPair hP hPsep
    obtain ⟨w, hw, hobjw, htpw, hspw, hpresT, hpresM⟩ :=
      matPath_ok (splitName d.name) st.window hW (hMat d (by simp))
    have hWa : isObjLike w = true := hobjw
    obtain ⟨st2, hst2, hobj2, htp2, hcl2, hif2, hcq2, hiq2, hdq2, hpres2⟩ :=
      definitionProcess2_ok { st with window := w } d hspw htpw
    have hPairHead : ∀ d2 ∈ ds, sepDefs d d2 := by
      intro d2 hd2
      exact (List.pairwise_cons.mp hPair).1 d2 hd2
    have hPairTail : ds.Pairwise sepDefs := (List.pairwise_cons.mp hPair).2
    have hMat2 : ∀ d2 ∈ ds, matOk st2.window (splitName d2.name) = true := by
      intro d2 hd2
      have h1 : matOk w (splitName d2.name) = true :=
        hpresM _ (hMat d2 (by simp [hd2]))
      exact (hpres2 _ (hPairHead d2 hd2).1).2 h1
    have hP2 : ∀ p ∈ (P ++ [splitName d.name]), truthyPath st2.window p = true := by
      intro p hp
      rcases List.mem_append.mp hp with hp1 | hp1
      · have h1 : truthyPath w p = true := hpresT _ (hP p hp1)
        exact (hpres2 _ (hPsep d (by simp) p hp1)).1 h1
      · simp at hp1
        rw [hp1]
        exact htp2
    have hPsep2 : ∀ d2 ∈ ds, ∀ p ∈ (P ++ [splitName d.name]),
        strictExtOf (splitName d2.name) p = false := by
      intro d2 hd2 p hp
      rcases List.mem_append.mp hp with hp1 | hp1
      · exact hPsep d2 (by simp [hd2]) p hp1
      · simp at hp1
        rw [hp1]
        exact (hPairHead d2 hd2).2
    have hobj2t : isObjLike st2.window = true := hobj2.trans hWa
    obtain ⟨st3, hst3, hobj3, hds3, hP3, hcl3, hif3, hcq3, hiq3⟩ :=
      ih st2 (P ++ [splitName d.name]) hobj2t hMat2 hPairTail hP2 hPsep2
    refine ⟨st3, ?_, hobj3, ?_, ?_, ?_, ?_, ?_, ?_⟩
    · show (matPath st.window (splitName d.name) >>= fun w2 =>
          definitionProcess2 { st with window := w2 } d >>= fun st2 =>
            createAssumedGo st2 ds) = Except.ok st3
      rw [hw, ok_bind, hst2, ok_bind, hst3]
    · intro d2 hd2
      rcases List.mem_cons.mp hd2 with h1 | h1
      · rw [h1]
        exact hP3 (splitName d.name) (by simp)
      · exact hds3 d2 h1
    · intro p hp
      exact hP3 p (by simp [hp])
    · rw [hcl3, hcl2]
    · rw [hif3, hif2]
    · rw [hcq3, hcq2]
    · rw [hiq3, hiq2]

theorem classProcessDeferred_empty (st : RegState) (h : st.classesToProcess = []) :
    classProcessDeferred st = Except.ok st := by
  rw [classProcessDeferred, h]
  have e1 : classDeferredLoop (List.length ([] : List (Option ClassArgs)) + 1) st
      = (do
          let r ← classPassGo st false st.classesToProcess
          let st2 := { r.1 with classesToProcess := compactQ r.2.1 }
          if r.2.2 then classDeferredLoop 0 st2 else Except.ok st2) := rfl
  rw [e1, h]
  rw [show classPassGo st false ([] : List (Option ClassArgs))
    = Except.ok (st, [], false) from rfl, ok_bind]
  show Except.ok { st with classesToProcess := compactQ ([] : List (Option ClassArgs)) }
      = Except.ok st
  rw [show compactQ ([] : List (Option ClassArgs)) = [] from rfl]
  have e2 : { st with classesToProcess := ([] : List (Option ClassArgs)) } = st := by
    cases st
    simp_all
  rw [e2]

theorem interfaceProcessDeferred_empty (st : RegState) (h : st.interfacesToProcess = []) :
    interfaceProcessDeferred st = Except.ok st := by
  rw [interfaceProcessDeferred, h]
  have e1 : interfaceDeferredLoop (List.length ([] : List (Option IfaceArgs)) + 1) false st
      = (do
          let r ← interfacePassGo st false st.interfacesToProcess
          let st2 := { r.1 with interfacesToProcess := compactQ r.2.1 }
          if r.2.2 then interfaceDeferredLoop 0 (false || r.2.2) st2
          else Except.ok (st2, false || r.2.2)) := rfl
  rw [e1, h]
  rw [show interfacePassGo st false ([] : List (Option IfaceArgs))
    = Except.ok (st, [], false) from rfl, ok_bind]
  show (if false = true then classProcessDeferred
      { st with interfacesToProcess := compactQ ([] : List (Option IfaceArgs)) }
    else Except.ok { st with interfacesToProcess := compactQ ([] : List (Option IfaceArgs)) })
      = Except.ok st
  rw [if_neg (by simp)]
  rw [show compactQ ([] : List (Option IfaceArgs)) = [] from rfl]
  have e2 : { st with interfacesToProcess := ([] : List (Option IfaceArgs)) } = st := by
    cases st
    simp_all
  rw [e2]

theorem mapGetB_mapSet_true (m : List (String × Bool)) (k n : String)
    (h : mapGetB m n = true) : mapGetB (mapSet m k true) n = true := by
  induction m with
  | nil => simp [mapGetB, mapSet] at h
  | cons kv rest ih =>
    obtain ⟨k1, b1⟩ := kv
    by_cases hk : k1 = k
    · simp only [mapSet, if_pos hk]
      by_cases hn : k1 = n
      · simp [mapGetB, hn]
      · simp only [mapGetB, if_neg hn] at h ⊢
        exact h
    · simp only [mapSet, if_neg hk]
      by_cases hn : k1 = n
      · simp only [mapGetB, if_pos hn] at h ⊢
        exact h
      · simp only [mapGetB, if_neg hn] at h ⊢
        exact ih h

theorem mapGetB_mapSet_same (m : List (String × Bool)) (k : String) (b : Bool) :
    mapGetB (mapSet m k b) k = b := by
  induction m with
  | nil => simp [mapGetB, mapSet]
  | cons kv rest ih =>
    by_cases hk : kv.1 = k
    · simp [mapSet, mapGetB, hk]
    · simp [mapSet, mapGetB, hk, ih]

/-- The classes field of the interim state of classProcess equals the
original classes field regardless of the naming-check branch. -/
theorem classProcess_ok_fields (st : RegState) (a : ClassArgs) (st2 : RegState)
    (h : classProcess st a = Except.ok st2) :
    st2.classes = mapSet st.classes a.name true
      ∧ st2.interfaces = st.interfaces
      ∧ st2.classesToProcess = st.classesToProcess
      ∧ st2.interfacesToProcess = st.interfacesToProcess := by
  simp only [classProcess] at h
  obtain ⟨ext, hx, h⟩ := except_bind_ok _ _ _ h
  obtain ⟨nc, hnc, h⟩ := except_bind_ok _ _ _ h
  obtain ⟨w, hww, h⟩ := except_bind_ok _ _ _ h
  have h2 : st2 = { (if isUpperStart (classNameForCheck a.name) then st
      else { st with errors := st.errors ++ [upperErrMsg a.name] }) with
        window := w,
        classes := mapSet (if isUpperStart (classNameForCheck a.name) then st
          else { st with errors := st.errors ++ [upperErrMsg a.name] }).classes a.name true } := by
    cases h
    rfl
  rw [h2]
  split <;> exact ⟨rfl, rfl, rfl, rfl⟩

theorem classPassGo_mono (q : List (Option ClassArgs)) :
    ∀ (st : RegState) (seen : Bool) (r : RegState × List (Option ClassArgs) × Bool),
      classPassGo st seen q = Except.ok r →
      (∀ n, mapGetB st.classes n = true → mapGetB r.1.classes n = true)
      ∧ r.1.interfaces = st.interfaces := by
  induction q with
  | nil =>
    intro st seen r h
    cases h
    exact ⟨fun n hn => hn, rfl⟩
  | cons e rest ih =>
    intro st seen r h
    cases e with
    | none =>
      simp only [classPassGo] at h
      obtain ⟨r0, hr0, h⟩ := except_bind_ok _ _ _ h
      have h2 : r = (r0.1, none :: r0.2.1, r0.2.2) := by cases h; rfl
      rw [h2]
      exact ih st seen r0 hr0
    | some args =>
      simp only [classPassGo] at h
      by_cases hm : classMissing st args = ""
      · rw [if_pos hm] at h
        obtain ⟨st1, hst1, h⟩ := except_bind_ok _ _ _ h
        obtain ⟨r0, hr0, h⟩ := except_bind_ok _ _ _ h
        have h2 : r = (r0.1, none :: r0.2.1, r0.2.2) := by cases h; rfl
        rw [h2]
        obtain ⟨hc, hi, _, _⟩ := classProcess_ok_fields st args st1 hst1
        obtain ⟨ihm, ihi⟩ := ih st1 true r0 hr0
        refine ⟨fun n hn => ?_, ?_⟩
        · exact ihm n (by rw [hc]; exact mapGetB_mapSet_true _ _ _ hn)
        · rw [ihi, hi]
      · rw [if_neg hm] at h
        obtain ⟨r0, hr0, h⟩ := except_bind_ok _ _ _ h
        have h2 : r = (r0.1, some args :: r0.2.1, r0.2.2) := by cases h; rfl
        rw [h2]
        exact ih st seen r0 hr0

theorem classDeferredLoop_mono (fuel : Nat) :
    ∀ (st st2 : RegState), classDeferredLoop fuel st = Except.ok st2 →
      (∀ n, mapGetB st.classes n = true → mapGetB st2.classes n = true)
      ∧ st2.interfaces = st.interfaces := by
  induction fuel with
  | zero =>
    intro st st2 h
    cases h
    exact ⟨fun n hn => hn, rfl⟩
  | succ k ih =>
    intro st st2 h
    simp only [classDeferredLoop] at h
    obtain ⟨r, hr, h⟩ := except_bind_ok _ _ _ h
    obtain ⟨hmono, hifc⟩ := classPassGo_mono st.classesToProcess st false r hr
    by_cases hseen : r.2.2 = true
    · rw [if_pos hseen] at h
      obtain ⟨ihm, ihi⟩ := ih _ _ h
      exact ⟨fun n hn => ihm n (hmono n hn), by rw [ihi]; exact hifc⟩
    · rw [if_neg hseen] at h
      have h2 : st2 = { r.1 with classesToProcess := compactQ r.2.1 } := by
        cases h; rfl
      rw [h2]
      exact ⟨hmono, hifc⟩

theorem classProcessDeferred_mono (st st2 : RegState)
    (h : classProcessDeferred st = Except.ok st2) :
    (∀ n, mapGetB st.classes n = true → mapGetB st2.classes n = true)
    ∧ st2.interfaces = st.interfaces :=
  classDeferredLoop_mono _ st st2 h

theorem interfaceProcess_ok_fields (st : RegState) (a : IfaceArgs) (st2 : RegState)
    (h : interfaceProcess st a = Except.ok st2) :
    st2.interfaces = st.interfaces ∧ st2.classes = st.classes
      ∧ st2.interfacesToProcess = st.interfacesToProcess := by
  cases hx : a.extendsName with
  | some e =>
    simp only [interfaceProcess, hx] at h
    obtain ⟨base, hb, h⟩ := except_bind_ok _ _ _ h
    cases base <;> simp only [] at h <;> cases h
  | none =>
    cases hn : a.name with
    | none =>
      simp only [interfaceProcess, hx, hn] at h
      cases h
    | some n =>
      simp only [interfaceProcess, hx, hn] at h
      obtain ⟨w, hw, h⟩ := except_bind_ok _ _ _ h
      have h2 : st2 = { st with window := w } := by cases h; rfl
      rw [h2]
      exact ⟨rfl, rfl, rfl⟩

theorem interfacePassGo_mono (q : List (Option IfaceArgs)) :
    ∀ (st : RegState) (seen : Bool) (r : RegState × List (Option IfaceArgs) × Bool),
      interfacePassGo st seen q = Except.ok r →
      r.1.interfaces = st.interfaces
      ∧ (∀ n, mapGetB st.classes n = true → mapGetB r.1.classes n = true) := by
  induction q with
  | nil =>
    intro st seen r h
    cases h
    exact ⟨rfl, fun n hn => hn⟩
  | cons e rest ih =>
    intro st seen r h
    cases e with
    | none =>
      simp only [interfacePassGo] at h
      obtain ⟨r0, hr0, h⟩ := except_bind_ok _ _ _ h
      have h2 : r = (r0.1, none :: r0.2.1, r0.2.2) := by cases h; rfl
      rw [h2]
      exact ih st seen r0 hr0
    | some args =>
      simp only [interfacePassGo] at h
      obtain ⟨m, hm, h⟩ := except_bind_ok _ _ _ h
      exact absurd hm (by rw [show interfaceMissing st cycligentThisArgs
        = Except.error JsErr.typeError from rfl]; intro hh; cases hh)

theorem interfaceDeferredLoop_mono (fuel : Nat) :
    ∀ (b : Bool) (st : RegState) (r : RegState × Bool),
      interfaceDeferredLoop fuel b st = Except.ok r →
      r.1.interfaces = st.interfaces
      ∧ (∀ n, mapGetB st.classes n = true → mapGetB r.1.classes n = true) := by
  induction fuel with
  | zero =>
    intro b st r h
    cases h
    exact ⟨rfl, fun n hn => hn⟩
  | succ k ih =>
    intro b st r h
    simp only [interfaceDeferredLoop] at h
    obtain ⟨r0, hr0, h⟩ := except_bind_ok _ _ _ h
    obtain ⟨hifc, hmono⟩ := interfacePassGo_mono st.interfacesToProcess st false r0 hr0
    by_cases hseen : r0.2.2 = true
    · rw [if_pos hseen] at h
      obtain ⟨ih1, ih2⟩ := ih _ _ _ h
      exact ⟨by rw [ih1]; exact hifc, fun n hn => ih2 n (hmono n hn)⟩
    · rw [if_neg hseen] at h
      have h2 : r = ({ r0.1 with interfacesToProcess := compactQ r0.2.1 }, b || r0.2.2) := by
        cases h; rfl
      rw [h2]
      exact ⟨hifc, hmono⟩

theorem interfaceProcessDeferred_mono (st st2 : RegState)
    (h : interfaceProcessDeferred st = Except.ok st2) :
    (∀ n, mapGetB st.interfaces n = true → mapGetB st2.interfaces n = true) := by
  simp only [interfaceProcessDeferred] at h
  obtain ⟨r, hr, h⟩ := except_bind_ok _ _ _ h
  obtain ⟨hifc, _⟩ := interfaceDeferredLoop_mono _ _ _ _ hr
  by_cases hp : r.2 = true
  · rw [if_pos hp] at h
    obtain ⟨_, hci⟩ := classProcessDeferred_mono _ _ h
    intro n hn
    rw [hci, hifc]
    exact hn
  · rw [if_neg hp] at h
    have h2 : st2 = r.1 := by cases h; rfl
    intro n hn
    rw [h2, hifc]
    exact hn

/-- The registry after cycligent.define of x.y.z with value 42 (which stays
pending: window.x is missing) followed by cycligent.define of x with value
true (which resolves at once and overwrites the created empty object with
the primitive true, leaving x.y.z pending). -/
def c8pre : Except JsErr RegState := do
  let s1 ← defineReg freshReg { name := "x.y.z", defn := some (JsVal.numV 42), priority := none }
  defineReg s1 { name := "x", defn := some (JsVal.boolV true), priority := none }

/-- C8 counterexample: the definition x.y.z is still pending when all
scripts have loaded, with the primitive true sitting at window.x on its
path.  The force-placeholder step does not resolve it to a value: the
materialisation loop silently fails to write into the boxed primitive and
then throws a TypeError reading a property of undefined (lines 3504-3508),
so _createAssumedDefinitions aborts and the pending definition is never
given a value.  This refutes the unconditional claim that every pending
Definition is resolved by the force-placeholder step. -/
theorem forcedPlaceholder_counterexample :
    c8pre.map (fun s => (s.definitionsToProcess.map DefArgs.name,
        truthy (getFieldT s.window "x"), isObjLike (getFieldT s.window "x")))
      = Except.ok (["x.y.z"], true, false)
    ∧ (c8pre >>= createAssumed).map (fun s => s.definitionsToProcess.map DefArgs.name)
      = Except.error JsErr.typeError := by
  exact ⟨by decide, by decide⟩

/-- C8 amended: provided no deferred classes or interfaces are queued (a
queued interface would make the closing deferred pass throw), every value
already present on a pending definition path is an object or a function,
and no pending definition name is a strict ancestor of another, the
force-placeholder step succeeds and resolves every pending definition to a
truthy value, materialising the missing segments as empty objects; Classes
and Interfaces are not forced (their maps are untouched); and re-running
the deferred resolution passes never un-resolves a record: every classes or
interfaces entry that is true stays true across any successful pass. -/
theorem forcedPlaceholderAmended (st : RegState)
    (hC : st.classesToProcess = []) (hI : st.interfacesToProcess = [])
    (hW : isObjLike st.window = true)
    (hMat : ∀ d ∈ st.definitionsToProcess, matOk st.window (splitName d.name) = true)
    (hSep : st.definitionsToProcess.Pairwise sepDefs) :
    (∃ st2, createAssumed st = Except.ok st2
      ∧ (∀ d ∈ st.definitionsToProcess, truthyPath st2.window (splitName d.name) = true)
      ∧ st2.classes = st.classes
      ∧ st2.interfaces = st.interfaces
      ∧ st2.classesToProcess = []
      ∧ st2.interfacesToProcess = [])
    ∧ (∀ t1 t2 : RegState, ∀ n : String, classProcessDeferred t1 = Except.ok t2 →
        mapGetB t1.classes n = true → mapGetB t2.classes n = true)
    ∧ (∀ t1 t2 : RegState, ∀ n : String, interfaceProcessDeferred t1 = Except.ok t2 →
        mapGetB t1.interfaces n = true → mapGetB t2.interfaces n = true) := by
  refine ⟨?_, ?_, ?_⟩
  · obtain ⟨st1, hst1, hobj1, hds1, _, hcl1, hif1, hcq1, hiq1⟩ :=
      createAssumedGo_ok st.definitionsToProcess st [] hW hMat hSep
        (by simp) (by simp)
    have hcq1e : st1.classesToProcess = [] := by rw [hcq1, hC]
    have hiq1e : st1.interfacesToProcess = [] := by rw [hiq1, hI]
    refine ⟨st1, ?_, hds1, hcl1, hif1, hcq1e, hiq1e⟩
    show (createAssumedGo st st.definitionsToProcess >>= fun s1 =>
        classProcessDeferred s1 >>= interfaceProcessDeferred) = Except.ok st1
    rw [hst1, ok_bind, classProcessDeferred_empty st1 hcq1e, ok_bind,
      interfaceProcessDeferred_empty st1 hiq1e]
  · intro t1 t2 n h hn
    exact (classProcessDeferred_mono t1 t2 h).1 n hn
  · intro t1 t2 n h hn
    exact interfaceProcessDeferred_mono t1 t2 h n hn

/-- A pending two-segment definition used in the C8 witness. -/
def c8okDef : DefArgs :=
  { name := "a.b", defn := some (JsVal.numV 42), priority := none }

/-- A registry with a single pending definition a.b over an empty window. -/
def c8okReg : RegState :=
  { freshReg with definitionsToProcess := [c8okDef] }

/-- Witness instantiating forcedPlaceholderAmended at a registry with one
pending two-segment definition. -/
theorem forcedPlaceholderAmended_witness :
    c8okReg.classesToProcess = []
    ∧ c8okReg.interfacesToProcess = []
    ∧ isObjLike c8okReg.window = true
    ∧ (∀ d ∈ c8okReg.definitionsToProcess, matOk c8okReg.window (splitName d.name) = true)
    ∧ c8okReg.definitionsToProcess.Pairwise sepDefs
    ∧ (∃ st2, createAssumed c8okReg = Except.ok st2
      ∧ (∀ d ∈ c8okReg.definitionsToProcess, truthyPath st2.window (splitName d.name) = true)
      ∧ st2.classes = c8okReg.classes
      ∧ st2.interfaces = c8okReg.interfaces
      ∧ st2.classesToProcess = []
      ∧ st2.interfacesToProcess = []) :=
  ⟨rfl, rfl, rfl,
    by intro d hd; simp [c8okReg, c8okDef, freshReg] at hd; rw [hd]; decide,
    by simp [c8okReg, c8okDef, freshReg],
    (forcedPlaceholderAmended c8okReg rfl rfl rfl
      (by intro d hd; simp [c8okReg, c8okDef, freshReg] at hd; rw [hd]; decide)
      (by simp [c8okReg, c8okDef, freshReg])).1⟩

/-- C9 amended: registering a Class whose name has a final path segment
that does not start with an uppercase letter fails loudly but proceeds:
the naming-convention error is logged, nothing is thrown, the class is
marked resolved in the classes map and its value is stored at its dotted
name (given an object-like spine to write into and no other queued class
work). -/
theorem classNamingCheckAmended (st : RegState) (name : String)
    (hQ : st.classesToProcess = [])
    (hSpine : spineOk st.window (splitName name) = true)
    (hLower : isUpperStart (classNameForCheck name) = false) :
    ∃ st2, classRegister st name none none = Except.ok st2
      ∧ st2.errors = st.errors ++ [upperErrMsg name]
      ∧ mapGetB st2.classes name = true
      ∧ truthyPath st2.window (splitName name) = true := by
  have hpc : parentChainMissing st.window (splitName name) = "" :=
    chainWalk_of_spineOk (splitName name) st.window "window" hSpine
  have hmiss : classMissing st { name := name, extendsName := none, impl := none } = "" := by
    simp only [classMissing, hpc]
    simp
  obtain ⟨w, hw, hobjw, htpw, _⟩ :=
    defSetGo_ok (splitName name) st.window (JsVal.funcV (some name) []) hSpine rfl
  have hnotUp : ¬ (isUpperStart (classNameForCheck name) = true) := by
    rw [hLower]
    simp
  have hcp : classProcess st { name := name, extendsName := none, impl := none }
      = Except.ok { st with
                    errors := st.errors ++ [upperErrMsg name],
                    window := w,
                    classes := mapSet st.classes name true } := by
    simp only [classProcess]
    rw [if_neg hnotUp]
    rw [show definitionGet ({ st with errors := st.errors ++ [upperErrMsg name] } : RegState).window
      none = Except.ok JsVal.undef from rfl, ok_bind]
    rw [show extendResult JsVal.undef name = Except.ok (JsVal.funcV (some name) []) from rfl,
      ok_bind]
    rw [show definitionSet ({ st with errors := st.errors ++ [upperErrMsg name] } : RegState).window
      name (JsVal.funcV (some name) [])
      = defSetGo (JsVal.funcV (some name) []) st.window (splitName name) from rfl, hw, ok_bind]
  have hfinal : classRegister st name none none
      = Except.ok { st with
                    errors := st.errors ++ [upperErrMsg name],
                    window := w,
                    classes := mapSet st.classes name true } := by
    simp only [classRegister,
      show (Option.map (fun s => List.map trimChars (splitChar ',' s)) (none : Option String))
        = (none : Option (List String)) from rfl]
    rw [if_pos hmiss]
    rw [hcp, ok_bind]
    exact classProcessDeferred_empty _ (by simpa using hQ)
  exact ⟨_, hfinal, rfl, mapGetB_mapSet_same _ _ _, htpw⟩

/-- A registry whose window holds an object at Foo. -/
def regUpperFoo : RegState :=
  { freshReg with window := JsVal.obj [("Foo", JsVal.obj [])] }

/-- Witness instantiating classNamingCheckAmended at the class Foo.bar,
whose final path segment bar is lowercase. -/
theorem classNamingCheckAmended_witness :
    regUpperFoo.classesToProcess = []
    ∧ spineOk regUpperFoo.window (splitName "Foo.bar") = true
    ∧ isUpperStart (classNameForCheck "Foo.bar") = false
    ∧ (∃ st2, classRegister regUpperFoo "Foo.bar" none none = Except.ok st2
      ∧ st2.errors = regUpperFoo.errors ++ [upperErrMsg "Foo.bar"]
      ∧ mapGetB st2.classes "Foo.bar" = true
      ∧ truthyPath st2.window (splitName "Foo.bar") = true) :=
  ⟨rfl, by decide, by decide,
    classNamingCheckAmended regUpperFoo "Foo.bar" rfl (by decide) (by decide)⟩

/-! ## Part 7: the full script-loaded event across loader and registry

cycligent.Imports.scriptLoaded (lines 3314-3324) runs the two deferred
resolution passes BEFORE decrementing scriptsPending, and those passes can
throw (any queued deferred interface does, see interfaceDeferredStuck); the
thrown TypeError aborts the handler before the decrement on line 3319, so a
script can reach Loaded without its pending unit ever being released.  The
definitions here model the complete event over the combined state. -/

/-- The combined state of the script loader and the registry. -/
structure SysState where
  imp : ImportsState
  reg : RegState

/-- Model of the full load-completion event: cycligent.Script.scriptLoaded
(lines 3194-3209) sets the loaded flag before invoking the callback, then
cycligent.Imports.scriptLoaded (lines 3314-3324) runs classProcessDeferred
and interfaceProcessDeferred and only afterwards decrements scriptsPending
and fires allScriptsLoaded on a zero crossing.  The Bool reports whether a
pass threw: the exception propagates out of the load event handler, leaving
the loader fields exactly as shown (decrement and settle skipped).  On the
interface-pass throw the registry is reg1 unchanged, which is exact: the
pass throws at its first queued entry before mutating anything (see
interfacePassGo_stuck).  A class-pass throw can leave registry mutations
from entries processed before the throw that the Except embedding does not
carry; no theorem below reads the registry of that branch, and the loader
fields, which they do read, are exact there too. -/
def scriptLoadedSys (s : SysState) (id : String) : SysState × Bool :=
  let imp0 := { s.imp with loadedList := s.imp.loadedList ++ [id] }
  match classProcessDeferred s.reg with
  | Except.error _ => ({ imp := imp0, reg := s.reg }, true)
  | Except.ok reg1 =>
      match interfaceProcessDeferred reg1 with
      | Except.error _ => ({ imp := imp0, reg := reg1 }, true)
      | Except.ok reg2 =>
          let imp1 := { imp0 with scriptsPending := imp0.scriptsPending - 1 }
          let imp2 := if imp1.scriptsPending = 0
            then { imp1 with settledCount := imp1.settledCount + 1 } else imp1
          ({ imp := imp2, reg := reg2 }, false)

/-- The timeout tick (lines 3217-3220) touches no registry state. -/
def scriptTimeoutSys (s : SysState) (id : String) : SysState × Bool :=
  ({ s with imp := scriptTimeoutEvt s.imp id }, false)

/-- Run a list of completion events against the combined state.  A thrown
pass aborts only its own handler: the hosting event loop dispatches the
remaining events regardless. -/
def runSysEvents (s : SysState) : List CEvent → SysState
  | [] => s
  | CEvent.loadDone id :: es => runSysEvents (scriptLoadedSys s id).1 es
  | CEvent.timedOut id :: es => runSysEvents (scriptTimeoutSys s id).1 es

/-- With no deferred class or interface work queued, both passes return the
registry unchanged and the full event reduces to the loader-only step. -/
theorem scriptLoadedSys_pure (imp : ImportsState) (reg : RegState) (id : String)
    (hC : reg.classesToProcess = []) (hI : reg.interfacesToProcess = []) :
    scriptLoadedSys { imp := imp, reg := reg } id
      = ({ imp := scriptLoadedEvt imp id, reg := reg }, false) := by
  simp only [scriptLoadedSys, classProcessDeferred_empty reg hC,
    interfaceProcessDeferred_empty reg hI]
  rfl

theorem runSysEvents_pure (es : List CEvent) :
    ∀ (imp : ImportsState) (reg : RegState),
      reg.classesToProcess = [] → reg.interfacesToProcess = [] →
      runSysEvents { imp := imp, reg := reg } es
        = { imp := runEvents imp es, reg := reg } := by
  induction es with
  | nil => intro imp reg _ _; rfl
  | cons e rest ih =>
    intro imp reg hC hI
    cases e with
    | loadDone id =>
      show runSysEvents (scriptLoadedSys { imp := imp, reg := reg } id).1 rest
          = { imp := runEvents imp (CEvent.loadDone id :: rest), reg := reg }
      rw [scriptLoadedSys_pure imp reg id hC hI]
      exact ih (scriptLoadedEvt imp id) reg hC hI
    | timedOut id =>
      show runSysEvents { imp := scriptTimeoutEvt imp id, reg := reg } rest
          = { imp := runEvents imp (CEvent.timedOut id :: rest), reg := reg }
      exact ih (scriptTimeoutEvt imp id) reg hC hI

/-- C1 counterexample: two outstanding requests, a deferred interface
queued (as after a loaded script registered an interface extending a
not-yet-present one).  Both scripts reach Loaded: the loaded flag is set at
line 3200 before the callback.  Yet each callback throws inside
interfaceProcessDeferred (lines 3316-3317) before the decrement at line
3319, so scriptsPending stays at 2 and the settled event fires zero times -
refuting the claim that it fires exactly once after all M requests reach
Loaded. -/
theorem settleNever_counterexample :
    (runSysEvents { imp := outstandingState ["a", "b"], reg := stuckReg }
        [CEvent.loadDone "a", CEvent.loadDone "b"]).imp.requestedList = ["a", "b"]
    ∧ (runSysEvents { imp := outstandingState ["a", "b"], reg := stuckReg }
        [CEvent.loadDone "a", CEvent.loadDone "b"]).imp.loadedList = ["a", "b"]
    ∧ (runSysEvents { imp := outstandingState ["a", "b"], reg := stuckReg }
        [CEvent.loadDone "a", CEvent.loadDone "b"]).imp.settledCount = 0
    ∧ (runSysEvents { imp := outstandingState ["a", "b"], reg := stuckReg }
        [CEvent.loadDone "a", CEvent.loadDone "b"]).imp.scriptsPending = 2
    ∧ (scriptLoadedSys { imp := outstandingState ["a", "b"], reg := stuckReg } "a").2 = true := by
  exact ⟨by decide, by decide, by decide, by decide, by decide⟩

/-- C1 amended: provided no deferred class or interface work is queued when
the load completions arrive (so the resolution passes of lines 3316-3317
return normally; a queued deferred interface instead throws, see
interfaceDeferredStuck), the resources-settled event fires at most once,
and fires exactly once precisely when every outstanding request has reached
Loaded; a timed-out request does not decrement scriptsPending; and in the
three-request scenario with two loads and one timeout the settled event
never fires. -/
theorem allScriptsSettleOnceAmended (R : List String) (es : List CEvent) (reg : RegState)
    (hR : R.Nodup) (hne : R ≠ [])
    (hC : reg.classesToProcess = []) (hI : reg.interfacesToProcess = [])
    (hwf : eventsWF (outstandingState R) es = true) :
    runSysEvents { imp := outstandingState R, reg := reg } es
        = { imp := runEvents (outstandingState R) es, reg := reg }
    ∧ (runEvents (outstandingState R) es).settledCount ≤ 1
    ∧ ((runEvents (outstandingState R) es).settledCount = 1 ↔
        ∀ id ∈ R, id ∈ (runEvents (outstandingState R) es).loadedList)
    ∧ (∀ (s : ImportsState) (id : String),
        (scriptTimeoutEvt s id).scriptsPending = s.scriptsPending)
    ∧ (runSysEvents { imp := outstandingState ["a", "b", "c"], reg := freshReg }
        [CEvent.loadDone "a", CEvent.loadDone "b", CEvent.timedOut "c"]).imp.settledCount
      = 0 := by
  have hinv := counterInv_run R es (outstandingState R) (outstanding_inv R hne) hwf
  obtain ⟨h1, h2, h3, h4, h5⟩ := hinv
  set fin := runEvents (outstandingState R) es with hfin
  refine ⟨runSysEvents_pure es (outstandingState R) reg hC hI, ?_, ?_,
    fun s id => rfl, by decide⟩
  · rw [h5]; split <;> omega
  · rw [h5]
    constructor
    · intro hone
      by_cases hlen : fin.loadedList.length = R.length
      · intro id hid
        have hsub : List.Subperm fin.loadedList R := List.subperm_of_subset h2 h3
        have hperm : List.Perm fin.loadedList R := hsub.perm_of_length_le (le_of_eq hlen.symm)
        exact hperm.mem_iff.mpr hid
      · rw [if_neg hlen] at hone
        exact absurd hone (by omega)
    · intro hall
      have hsubR : R ⊆ fin.loadedList := fun id hid => hall id hid
      have hsub1 : List.Subperm fin.loadedList R := List.subperm_of_subset h2 h3
      have hsub2 : List.Subperm R fin.loadedList := List.subperm_of_subset hR hsubR
      have hlen : fin.loadedList.length = R.length :=
        Nat.le_antisymm hsub1.length_le hsub2.length_le
      rw [if_pos hlen]

/-- Witness instantiating allScriptsSettleOnceAmended at the three-script
scenario over a registry with no deferred work. -/
theorem allScriptsSettleOnceAmended_witness :
    (["a", "b", "c"] : List String).Nodup
    ∧ (["a", "b", "c"] : List String) ≠ []
    ∧ freshReg.classesToProcess = []
    ∧ freshReg.interfacesToProcess = []
    ∧ eventsWF (outstandingState ["a", "b", "c"])
        [CEvent.loadDone "a", CEvent.loadDone "b", CEvent.timedOut "c"] = true
    ∧ (runEvents (outstandingState ["a", "b", "c"])
        [CEvent.loadDone "a", CEvent.loadDone "b", CEvent.timedOut "c"]).settledCount ≤ 1 :=
  ⟨by decide, by decide, rfl, rfl, by decide,
    (allScriptsSettleOnceAmended ["a", "b", "c"]
      [CEvent.loadDone "a", CEvent.loadDone "b", CEvent.timedOut "c"] freshReg
      (by decide) (by decide) rfl rfl (by decide)).2.1⟩
